import Mathlib

/-!
# Verification of the devlm agent control loop (`bootstrap.py`)

A shallow embedding of the parts of `bootstrap.py` that the checked claims
speak about, together with theorems settling each claim.

Python strings are modelled as `List Char` (`PyStr`); the Python string
methods used by the embedded functions (`strip`, `split`, `startswith`,
`in`, slicing, `splitlines`, `int(...)`) are modelled below, each with a
note on the exact Python behaviour it captures.  Python `dict`s are
modelled as association lists, Python exceptions as `Option` (with `none`
for an uncaught exception), and module-global mutable state as explicit
state records.
-/

/-- Python `str` modelled as a list of characters. -/
abbrev PyStr := List Char

/-- Coerce a Lean string literal to `PyStr`. -/
def pys (s : String) : PyStr := s.data

/-- Python `str.isspace` characters relevant to `str.strip()` (ASCII range). -/
def isPySpace (c : Char) : Bool :=
  c = ' ' || c = '\t' || c = '\n' || c = '\x0d' || c = '\x0b' || c = '\x0c'

/-- Python `s.strip()`: drop whitespace from both ends. -/
def pyStrip (s : PyStr) : PyStr :=
  ((s.dropWhile isPySpace).reverse.dropWhile isPySpace).reverse

/-- Python `s.startswith(pre)`. -/
def pyStartsWith (s pre : PyStr) : Bool := pre.isPrefixOf s

/-- Python `sub in s` (substring containment). -/
def pyIn (sub s : PyStr) : Bool := decide (sub <:+: s)

/-- Python `s.split(sep)` for the single-character separator `sep`
(all occurrences, empty pieces kept). -/
def splitOnChar (sep : Char) : PyStr → List PyStr
  | [] => [[]]
  | c :: cs =>
    if c = sep then [] :: splitOnChar sep cs
    else
      match splitOnChar sep cs with
      | [] => [[c]]
      | l :: ls => (c :: l) :: ls

/-- Python `s.split('&&')`: greedy left-to-right scan on the two-character
separator, empty pieces kept. -/
def splitOnAmpAmp : PyStr → List PyStr
  | [] => [[]]
  | '&' :: '&' :: cs => [] :: splitOnAmpAmp cs
  | c :: cs =>
    match splitOnAmpAmp cs with
    | [] => [[c]]
    | l :: ls => (c :: l) :: ls

/-- Python `s.split()` (no argument): split on whitespace runs, discarding
empty pieces. -/
def pySplitWSAux : PyStr → PyStr → List PyStr
  | [], cur => if cur = [] then [] else [cur.reverse]
  | c :: cs, cur =>
    if isPySpace c then
      if cur = [] then pySplitWSAux cs [] else cur.reverse :: pySplitWSAux cs []
    else pySplitWSAux cs (c :: cur)

/-- Python `s.split()` (no argument). -/
def pySplitWS (s : PyStr) : List PyStr := pySplitWSAux s []

/-!
## Process supervisor (`bootstrap.py:1166-1303`)

`parse_compound_command`, `get_process_key`, the choice of the command
actually launched by `run_continuous_process`, and the crash path of
`check_process_output` / `restart_process` when the run-part is `None`.
-/

/-- Embeds `parse_compound_command` (bootstrap.py:1166-1176):
splits on `'&&'`, strips each part; parts starting with `'cd '` overwrite
`cd_part`, all others overwrite `run_part`; both start as Python `None`
(modelled by `none`). -/
def parse_compound_command (command : PyStr) : Option PyStr × Option PyStr :=
  (splitOnAmpAmp command).foldl
    (fun acc part =>
      let p := pyStrip part
      if pyStartsWith p (pys "cd ") then (some p, acc.2) else (acc.1, some p))
    (none, none)

/-- Embeds `get_process_key` (bootstrap.py:1178-1183).  The Python body calls
`run_part.startswith(...)`; when `run_part` is `None` this raises an
uncaught `AttributeError`, modelled by `none`.  For an `'npm run'`-prefixed
run-part the key is `run_part.split()[-1]` (an empty split list would raise
`IndexError`, also modelled by `none`); otherwise the whole run-part is
returned. -/
def get_process_key (command : PyStr) : Option PyStr :=
  match (parse_compound_command command).2 with
  | none => none
  | some run_part =>
    if pyStartsWith run_part (pys "npm run") then
      (pySplitWS run_part).getLast?
    else
      some run_part

/-- A supervisor table entry (`running_processes` items,
bootstrap.py:1215-1224), with the OS-level process state abstracted:
`terminated` models `process.poll() is not None` and `queued` the drained
contents of the entry's output queue. -/
structure ProcEntry where
  cmd : PyStr
  terminated : Bool
  queued : PyStr

/-- Embeds `check_process_output` (bootstrap.py:1255-1276) over the
abstracted process state.  The initial `get_process_key` call crashes
(`none`) when the command has no run-part; otherwise the first entry whose
command contains the key is reported: a terminated entry yields `("","")`,
a live one yields the command and the last 3000 characters of its queued
output; no match yields `("","")`. -/
def check_process_output (procs : List ProcEntry) (command : PyStr) :
    Option (PyStr × PyStr) :=
  match get_process_key command with
  | none => none
  | some key =>
    match procs.find? (fun pi => pyIn key pi.cmd) with
    | none => some ([], [])
    | some pi =>
      if pi.terminated then some ([], [])
      else some (command, pi.queued.reverse.take 3000 |>.reverse)

/-- Embeds the command chosen by `run_continuous_process`
(bootstrap.py:1185-1199): `run_command = run_part if run_part else command`,
where Python truthiness makes both `None` and the empty string fall back to
the full compound command. -/
def planned_run_command (command : PyStr) : PyStr :=
  match (parse_compound_command command).2 with
  | none => command
  | some r => if r = [] then command else r

/-- Embeds the part of `restart_process` (bootstrap.py:1277-1303) up to and
including the key lookup: the initial `get_process_key` call crashes
(`none`) on a command with no run-part; otherwise the function proceeds
(terminates a matching entry and relaunches), which is abstracted here as
the surviving table together with the restart banner outcome. -/
def restart_process (procs : List ProcEntry) (command : PyStr) :
    Option (List ProcEntry) :=
  match get_process_key command with
  | none => none
  | some key => some (procs.filter (fun pi => ¬ pyIn key pi.cmd))

/-- The stripped non-`cd` segments of a compound command, in order: the
derived notion the implicit claims C9/C10 quantify over. -/
def nonCdSegments (command : PyStr) : List PyStr :=
  ((splitOnAmpAmp command).map pyStrip).filter
    (fun p => ¬ pyStartsWith p (pys "cd "))

/-- Modelled from the spec's words for claim C7, to be compared with the
code's `get_process_key`: "the supervisor lookup key … is the npm script
name when the run-part … begins with 'npm run', and otherwise the last
whitespace-separated token of the run-part" (the npm script name being the
last token of the npm command, both branches take the last token). -/
def claimed_process_key (command : PyStr) : Option PyStr :=
  match (parse_compound_command command).2 with
  | none => none
  | some run_part => (pySplitWS run_part).getLast?

/-!
## LLM transport prompt clamping (`bootstrap.py:73-75, 151-158, 2901`)
-/

/-- The module-level globals read by the transport and the prompt assembler
(`Global_error`, bootstrap.py:74). -/
structure TransportGlobals where
  globalError : PyStr
deriving DecidableEq

/-- `GLOBAL_MAX_PROMPT_LENGTH` (bootstrap.py:73). -/
def GLOBAL_MAX_PROMPT_LENGTH : Nat := 200000

/-- `GLOBAL_ERROR_PROMPT_LENGTH` (bootstrap.py:75). -/
def GLOBAL_ERROR_PROMPT_LENGTH : PyStr :=
  pys "Prompt length is too long. Truncated to 200000 characters. However, this is a FATAL problem that will prevent the LLM from getting other relevant information making it useless. Figure out what is causing prompt length to be too long and fix it."

/-- Embeds the prompt-clamping prologue of `AnthropicLLM.generate_response`
(bootstrap.py:151-158; the other two providers repeat it verbatim at
292-295 and 411-414).  The Python body assigns `Global_error` without a
`global` declaration, so the assignment creates a function-local binding
and the module global is untouched.  Returns (prompt actually sent to the
API, final value of the local `Global_error`, module globals after the
call). -/
def generate_response_clamp (st : TransportGlobals) (prompt : PyStr) :
    PyStr × PyStr × TransportGlobals :=
  let localError : PyStr := []
  if prompt.length > GLOBAL_MAX_PROMPT_LENGTH then
    (prompt.take GLOBAL_MAX_PROMPT_LENGTH, GLOBAL_ERROR_PROMPT_LENGTH, st)
  else
    (prompt, localError, st)

/-- Embeds the `Global_error` block of the assembled prompt
(bootstrap.py:2901): `"{NEWLINE}" + Global_error + "{NEWLINE}" if
Global_error else ""`, reading the module-level `Global_error`. -/
def prompt_global_error_block (st : TransportGlobals) : PyStr :=
  if st.globalError ≠ [] then
    pys "{NEWLINE}" ++ st.globalError ++ pys "{NEWLINE}"
  else []

/-!
## Captured-output recording on iteration records
(`bootstrap.py:3394-3396, 3402-3404, 3483-3487`)
-/

/-- Embeds the RAW/INDEF output recording (bootstrap.py:3396 and 3404):
`output[:12000] if len(output) < 12000 else "Output truncated due to
length"`. -/
def recorded_output_raw_indef (output : PyStr) : PyStr :=
  if output.length < 12000 then output.take 12000
  else pys "Output truncated due to length"

/-- Embeds the RUN output recording (bootstrap.py:3485-3486): the `output`
field is set only when `len(output) < 12000`, else omitted entirely. -/
def recorded_output_run (output : PyStr) : Option PyStr :=
  if output.length < 12000 then some output else none

/-- An iteration record's output/success fields as populated by the
RAW/INDEF branches (bootstrap.py:3391-3407) and the RUN branch
(3483-3487). -/
structure RecordedCmd where
  output : Option PyStr
  success : Bool

/-- RAW/INDEF record population. -/
def raw_indef_entry (output : PyStr) (success : Bool) : RecordedCmd :=
  ⟨some (recorded_output_raw_indef output), success⟩

/-- RUN record population. -/
def run_entry (output : PyStr) (success : Bool) : RecordedCmd :=
  ⟨recorded_output_run output, success⟩

/-!
## Command dispatch with the long-running-command heuristic
(`bootstrap.py:1294-1357`)
-/

/-- Python `s.upper()` (ASCII letters). -/
def pyUpper (s : PyStr) : PyStr := s.map Char.toUpper

/-- Python `s.split(sep, 1)` for a single-character separator: `none` when
`sep` does not occur, else the pieces before and after its first
occurrence. -/
def splitFirstChar (sep : Char) : PyStr → Option (PyStr × PyStr)
  | [] => none
  | c :: cs =>
    if c = sep then some ([], cs)
    else (splitFirstChar sep cs).map (fun p => (c :: p.1, p.2))

/-- Python `command.split(":", 1)[1].strip()`; `none` models the
`IndexError` raised when no colon is present (unreachable under the
`startswith` guards that precede it). -/
def pyColonArg (command : PyStr) : Option PyStr :=
  (splitFirstChar ':' command).map (fun p => pyStrip p.2)

/-- Python `dict` lookup on the association-list model of
`command_decisions` (bootstrap.py:1294). -/
def dictGet (d : List (PyStr × PyStr)) (k : PyStr) : Option PyStr :=
  (d.find? (fun kv => kv.1 == k)).map Prod.snd

/-- Python `dict` assignment `d[k] = v`: replace the value of an existing
key in place, else append. -/
def dictSet (d : List (PyStr × PyStr)) (k v : PyStr) : List (PyStr × PyStr) :=
  match d with
  | [] => [(k, v)]
  | kv :: rest => if kv.1 == k then (k, v) :: rest else kv :: dictSet rest k v

/-- `APPROVAL_REQUIRED_COMMANDS` (bootstrap.py:109-114). -/
def APPROVAL_REQUIRED_COMMANDS : List PyStr :=
  [pys "sudo apt install", pys "./", pys "RAW: <raw_command>"]

/-- The long-running-process suggestion text (bootstrap.py:1345-1349). -/
def LONG_RUNNING_SUGGESTION : PyStr :=
  pys "This command appears to start a long-running process (like an API server). Consider using the INDEF action if it needs to run indefinitely. If you believe this process should complete quickly, you can use the RUN action again."

/-- The observable effect selected by `execute_command`: which subsystem is
invoked (or which early return fires).  UI payload extraction and the OS
side of the foreground/background runners live outside the claims and are
carried as the raw command. -/
inductive ExecEffect where
  | uiOpen (raw : PyStr)
  | uiClick (raw : PyStr)
  | uiCheckText (raw : PyStr)
  | uiCheckLog (raw : PyStr)
  | runContinuous (cmd : Option PyStr)
  | checkOutput (cmd : Option PyStr)
  | notApproved
  | suggestionOnly (text : PyStr)
  | foreground (cmd : PyStr) (timeout : Nat)
deriving DecidableEq

/-- Embeds `execute_command` (bootstrap.py:1305-1357): the UI branches
(gated on `frontend_testing_enabled`), the `INDEF:`/`CHECK:`/`RAW:`
prefixes, the optional `RUN:` strip, the `'go run'` long-running heuristic
over `command_decisions`, the promotion of a suggested command to
`not_indefinite`, and the approval gate before
`execute_command_with_timeout`.  `require_approval` (operator input) is a
parameter.  Returns the updated `command_decisions` and the selected
effect. -/
def execute_command (frontend_testing_enabled : Bool)
    (require_approval : PyStr → Bool)
    (command_decisions : List (PyStr × PyStr)) (command : PyStr)
    (timeout : Nat := 600) : List (PyStr × PyStr) × ExecEffect :=
  if frontend_testing_enabled && pyStartsWith (pyUpper command) (pys "UI_OPEN:") then
    (command_decisions, .uiOpen command)
  else if frontend_testing_enabled && pyStartsWith (pyUpper command) (pys "UI_CLICK:") then
    (command_decisions, .uiClick command)
  else if frontend_testing_enabled && pyStartsWith (pyUpper command) (pys "UI_CHECK_TEXT:") then
    (command_decisions, .uiCheckText command)
  else if frontend_testing_enabled && pyStartsWith (pyUpper command) (pys "UI_CHECK_LOG:") then
    (command_decisions, .uiCheckLog command)
  else if pyStartsWith (pyUpper command) (pys "INDEF:") then
    (command_decisions, .runContinuous (pyColonArg command))
  else if pyStartsWith (pyUpper command) (pys "CHECK:") then
    (command_decisions, .checkOutput (pyColonArg command))
  else if pyStartsWith command (pys "RAW:") then
    let raw_command := pyStrip (command.drop 4)
    if !(require_approval raw_command) then (command_decisions, .notApproved)
    else (command_decisions, .foreground raw_command timeout)
  else
    let command1 :=
      if pyStartsWith (pyUpper command) (pys "RUN:") then pyStrip (command.drop 4)
      else command
    if pyIn (pys "go run") command1 && (dictGet command_decisions command1).isNone then
      (dictSet command_decisions command1 (pys "suggested_indef"),
        .suggestionOnly LONG_RUNNING_SUGGESTION)
    else
      let decisions2 :=
        if dictGet command_decisions command1 = some (pys "suggested_indef") then
          dictSet command_decisions command1 (pys "not_indefinite")
        else command_decisions
      if APPROVAL_REQUIRED_COMMANDS.any (fun p => pyStartsWith command1 p) then
        if !(require_approval command1) then (decisions2, .notApproved)
        else (decisions2, .foreground command1 timeout)
      else (decisions2, .foreground command1 timeout)

/-!
## Unchanged-file lockout (`bootstrap.py:1876, 3124-3133, 3325-3342,
3546-3550`)
-/

/-- The `unchanged_files` dict (bootstrap.py:1876), modelled as a partial
map from path to its Python-int counter. -/
abbrev LockTable := PyStr → Option Int

/-- Python dict assignment `unchanged_files[p] = v`. -/
def lockSet (m : LockTable) (k : PyStr) (v : Int) : LockTable :=
  fun q => if q = k then some v else m q

/-- The end-of-iteration loop (bootstrap.py:3546-3550): every counter is
decremented and entries that reach exactly 0 are deleted. -/
def decrement_unchanged (m : LockTable) : LockTable :=
  fun q => (m q).bind (fun c => if c - 1 = 0 then none else some (c - 1))

/-- One `test_and_debug_mode` iteration abstracted to its effect on the
lockout table.  `readModify p identical` is a `READ:...; MODIFY: p` action
whose rewritten content is byte-identical to the on-disk file iff
`identical`; `completing` is any other action whose branch reaches the end
of the loop body; `erroring` is any other branch that records an error and
`continue`s (skipping the end-of-iteration decrement). -/
inductive LoopAction where
  | readModify (path : PyStr) (identical : Bool)
  | completing
  | erroring
deriving DecidableEq

/-- The outcome of one iteration with respect to the lockout logic. -/
inductive LoopOutcome where
  | editRefused   -- bootstrap.py:3124-3133: still locked; `continue`
  | lockInserted  -- bootstrap.py:3325-3342: identical bytes; insert 2; `continue`
  | editApplied   -- modification written; loop body completes
  | completed
  | errored
deriving DecidableEq

/-- One iteration's effect on the lockout table, following the control
flow of the loop body: the lock check at bootstrap.py:3124 (`write_file in
unchanged_files and unchanged_files[write_file] > 0`), the insertion of 2
at 3334 when `compare_and_write` reports no change, and the decrement at
3546-3550 which only branches that do not `continue` reach. -/
def lockStep (m : LockTable) (a : LoopAction) : LockTable × LoopOutcome :=
  match a with
  | .readModify p identical =>
    if ((m p).getD 0) > 0 then (m, .editRefused)
    else if identical then (lockSet m p 2, .lockInserted)
    else (decrement_unchanged m, .editApplied)
  | .completing => (decrement_unchanged m, .completed)
  | .erroring => (m, .errored)

/-- Iterated `lockStep`. -/
def runLock (m : LockTable) : List LoopAction → LockTable
  | [] => m
  | a :: rest => runLock (lockStep m a).1 rest

/-- Modelled from the claim's words for C1 ("at the end of every iteration
each counter is decremented and zero-valued entries are removed"), for
comparison with the code's `lockStep`: identical except that the decrement
also runs at the end of refused, lock-inserting and erroring iterations. -/
def claimLockStep (m : LockTable) (a : LoopAction) : LockTable × LoopOutcome :=
  match a with
  | .readModify p identical =>
    if ((m p).getD 0) > 0 then (decrement_unchanged m, .editRefused)
    else if identical then (decrement_unchanged (lockSet m p 2), .lockInserted)
    else (decrement_unchanged m, .editApplied)
  | .completing => (decrement_unchanged m, .completed)
  | .erroring => (decrement_unchanged m, .errored)

/-- Iterated `claimLockStep`. -/
def claimRunLock (m : LockTable) : List LoopAction → LockTable
  | [] => m
  | a :: rest => claimRunLock (claimLockStep m a).1 rest

/-- The number of iterations along a run whose branch reaches the
end-of-iteration decrement. -/
def decSteps (m : LockTable) : List LoopAction → Nat
  | [] => 0
  | a :: rest =>
    let s := lockStep m a
    (if s.2 = .editApplied ∨ s.2 = .completed then 1 else 0) + decSteps s.1 rest

/-- The empty lockout table. -/
def emptyLock : LockTable := fun _ => none

/-!
## Repeat-inspection guard (`bootstrap.py:1969, 2735-2738, 2971-2989`)
-/

/-- The loop state relevant to the INSPECT guard: `last_inspected_files`
(bootstrap.py:1969/2989), `last_unsuccessful_inspection_iteration`
(2738/2979) and the iteration counter. -/
structure InspectState where
  last_inspected_files : List PyStr
  last_unsuccessful_inspection_iteration : Int
  iteration : Int
deriving DecidableEq

/-- Python `set(a) == set(b)` on lists of paths. -/
def pySetEq (a b : List PyStr) : Bool :=
  a.all (fun x => b.contains x) && b.all (fun x => a.contains x)

/-- One iteration as seen by the INSPECT guard: an `INSPECT` of a list of
paths, or any other action (which only advances the iteration counter). -/
inductive IterAction where
  | inspect (files : List PyStr)
  | other

/-- Whether the iteration's INSPECT was refused by the guard. -/
inductive InspectOutcome where
  | refused | inspected | didOther
deriving DecidableEq

/-- Embeds the guard at bootstrap.py:2977-2989 plus the shared iteration
bookkeeping: an INSPECT is refused iff the requested set equals the last
inspected set AND the last refusal (`last_unsuccessful_inspection_iteration`)
was exactly one iteration ago; a refusal records itself and `continue`s; a
successful INSPECT updates `last_inspected_files`. -/
def inspectStep (st : InspectState) (a : IterAction) : InspectState × InspectOutcome :=
  match a with
  | .inspect fs =>
    if pySetEq fs st.last_inspected_files = true ∧
        st.iteration - st.last_unsuccessful_inspection_iteration = 1 then
      ({ st with last_unsuccessful_inspection_iteration := st.iteration,
                 iteration := st.iteration + 1 }, .refused)
    else
      ({ st with last_inspected_files := fs, iteration := st.iteration + 1 },
        .inspected)
  | .other => ({ st with iteration := st.iteration + 1 }, .didOther)

/-- Iterated `inspectStep`. -/
def runInspect (st : InspectState) : List IterAction → InspectState
  | [] => st
  | a :: rest => runInspect (inspectStep st a).1 rest

/-- The state on entry to the loop (bootstrap.py:1969, 2735-2738):
`last_inspected_files = []` and
`last_unsuccessful_inspection_iteration = iteration = len(command_history)+1`. -/
def initInspectState (startIteration : Int) : InspectState :=
  ⟨[], startIteration, startIteration⟩

/-!
## File-edit engine: `apply_modifications` (`bootstrap.py:2625-2682`)
-/

/-- Python `'\n'.join(ls)`. -/
def joinNl : List PyStr → PyStr
  | [] => []
  | [l] => l
  | l :: ls => l ++ '\n' :: joinNl ls

/-- Python `s.split('\n')`. -/
def splitNl (s : PyStr) : List PyStr := splitOnChar '\n' s

/-- Python `str(i)` on an int. -/
def pyIntStr (i : Int) : PyStr := (toString i).data

/-- One parsed modification command: the Python tuple
`(command_type, *line_range, content)`.  `range` keeps the splatted
`line_range` as a list because a malformed `MODIFY a-b-c` line yields a
tuple of arity ≠ 4, which the application loop's unpacking would crash
on. -/
structure PyCmd where
  type : PyStr
  range : List Int
  content : PyStr
deriving DecidableEq

/-- One pass of the `for cmd_type, start_line, end_line, content in
commands` loop body of `apply_modifications` (bootstrap.py:2638-2679),
over the state (lines, line_adjustment, changes_summary).  `none` models
the `ValueError` of unpacking a command tuple whose arity is not 4.
Python slice semantics: `del lines[x:y]` and `lines[x:y] = new` keep the
elements before `x` and from `max x y` on (an empty slice removes
nothing), and `lines[x:y]` reads `(lines.drop x).take (y - x)`. -/
def applyCmd (lines : List PyStr) (adj : Int) (summary : List PyStr)
    (c : PyCmd) : Option (List PyStr × Int × List PyStr) :=
  match c.range with
  | [start_line, end_line] =>
    if c.type = pys "REMOVE" then
      if 1 ≤ start_line + adj ∧ start_line + adj ≤ (lines.length : Int) ∧
          1 ≤ end_line + adj ∧ end_line + adj ≤ (lines.length : Int) then
        some (lines.take (start_line + adj - 1).toNat ++
            lines.drop (max (start_line + adj - 1).toNat (end_line + adj).toNat),
          adj - (end_line + adj - (start_line + adj) + 1),
          summary ++ (pys "Removed lines " ++ pyIntStr start_line ++ pys "-" ++
              pyIntStr end_line ++ pys ":") ::
            ((lines.drop (start_line + adj - 1).toNat).take
                ((end_line + adj).toNat - (start_line + adj - 1).toNat)).map
              (fun l => pys "  - " ++ l))
      else
        some (lines, adj,
          summary ++ [pys "Warning: Could not remove lines " ++ pyIntStr start_line ++
            pys "-" ++ pyIntStr end_line ++ pys " (out of range)"])
    else if c.type = pys "MODIFY" then
      if 1 ≤ start_line + adj ∧ start_line + adj ≤ (lines.length : Int) ∧
          1 ≤ end_line + adj ∧ end_line + adj ≤ (lines.length : Int) then
        some (lines.take (start_line + adj - 1).toNat ++ splitNl c.content ++
            lines.drop (max (start_line + adj - 1).toNat (end_line + adj).toNat),
          adj + (((splitNl c.content).length : Int) -
            (end_line + adj - (start_line + adj) + 1)),
          summary ++ (pys "Modified lines " ++ pyIntStr start_line ++ pys "-" ++
              pyIntStr end_line ++ pys ":") ::
            (((lines.drop (start_line + adj - 1).toNat).take
                ((end_line + adj).toNat - (start_line + adj - 1).toNat)).map
              (fun l => pys "  - Old: " ++ l) ++
             (splitNl c.content).map (fun l => pys "  + New: " ++ l)))
      else
        some (lines, adj,
          summary ++ [pys "Warning: Could not modify lines " ++ pyIntStr start_line ++
            pys "-" ++ pyIntStr end_line ++ pys " (out of range)"])
    else if c.type = pys "ADD" then
      if 0 ≤ start_line + adj ∧ start_line + adj ≤ (lines.length : Int) then
        some (lines.take (start_line + adj).toNat ++ splitNl c.content ++
            lines.drop (start_line + adj).toNat,
          adj + ((splitNl c.content).length : Int),
          summary ++ (pys "Added after line " ++ pyIntStr start_line ++ pys ":") ::
            (splitNl c.content).map (fun l => pys "  + " ++ l))
      else
        some (lines, adj,
          summary ++ [pys "Warning: Could not add after line " ++
            pyIntStr start_line ++ pys " (out of range)"])
    else
      some (lines, adj, summary)
  | _ => none

/-- Embeds `apply_modifications` (bootstrap.py:2625-2682): split the file
content on newlines, run the command loop with the running line-offset
accumulator, and rejoin.  The `if not commands` early return
(bootstrap.py:2631-2632) yields a 2-tuple that crashes the caller's
3-tuple unpacking, modelled as `none`; otherwise the result is
`(new_content, changes_summary, False)`. -/
def apply_modifications (file_content : PyStr) (commands : List PyCmd) :
    Option (PyStr × PyStr × Bool) :=
  if commands = [] then none
  else
    (commands.foldlM (fun acc c => applyCmd acc.1 acc.2.1 acc.2.2 c)
        (splitNl file_content, (0 : Int), ([] : List PyStr))).map
      (fun res => (joinNl res.1, joinNl res.2.2, false))

/-!
## File-edit engine: `parse_modification_commands`
(`bootstrap.py:2505-2623`) and `process_file_modifications` (2684-2692)
-/

/-- The line-boundary characters of Python `str.splitlines`. -/
def isPyLineBreak (c : Char) : Bool :=
  c = '\n' || c = '\x0d' || c = '\x0b' || c = '\x0c' || c = '\x1c' ||
  c = '\x1d' || c = '\x1e' || c = '\x85' || c = '\u2028' || c = '\u2029'

/-- Python `s.splitlines(keepends=True)`: lines keep their terminators,
`'\r\n'` counts as a single boundary, a final unterminated line is kept,
and the empty string yields no lines. -/
def splitLinesKeepAux : PyStr → PyStr → List PyStr
  | [], cur => if cur = [] then [] else [cur.reverse]
  | c :: cs, cur =>
    if c = '\x0d' ∧ cs.head? = some '\n' then
      (cur.reverse ++ ['\x0d', '\n']) :: splitLinesKeepAux cs.tail []
    else if isPyLineBreak c then (cur.reverse ++ [c]) :: splitLinesKeepAux cs []
    else splitLinesKeepAux cs (c :: cur)
termination_by s _ => s.length
decreasing_by
  all_goals simp_wf
  all_goals omega

/-- Python `s.splitlines(keepends=True)`. -/
def splitLinesKeep (s : PyStr) : List PyStr := splitLinesKeepAux s []

/-- Decimal digit run to a number. -/
def parseDigits : PyStr → Option Nat
  | [] => none
  | ds =>
    if ds.all Char.isDigit then
      some (ds.foldl (fun acc c => acc * 10 + (c.toNat - 48)) 0)
    else none

/-- Python `int(s)` on an optionally signed decimal numeral (surrounding
whitespace stripped, as `int` does); `none` models `ValueError`.
Underscore digit grouping is not modelled. -/
def pyParseInt (s : PyStr) : Option Int :=
  match pyStrip s with
  | '-' :: ds => (parseDigits ds).map (fun v => -(v : Int))
  | '+' :: ds => (parseDigits ds).map (fun v => (v : Int))
  | ds => (parseDigits ds).map (fun v => (v : Int))

/-- Python `s.split(sep, 1)` for a multi-character separator: `none` when
`sep` does not occur (so `sep in s` is false), else the pieces before and
after the first occurrence. -/
def splitFirstSub (sep : PyStr) : PyStr → Option (PyStr × PyStr)
  | [] => none
  | c :: cs =>
    if sep.isPrefixOf (c :: cs) then some ([], (c :: cs).drop sep.length)
    else (splitFirstSub sep cs).map (fun p => (c :: p.1, p.2))

/-- `"Error: No valid modification commands found."` -/
def errNoValid : PyStr := pys "Error: No valid modification commands found."

/-- The mixing error (bootstrap.py:2548): names both kinds. -/
def mixError (cur new : PyStr) : PyStr :=
  pys "Error: Cannot mix different command types. Found both " ++ cur ++
    pys " and " ++ new ++ pys "."

/-- The mutable locals of the `parse_modification_commands` scan
(bootstrap.py:2511-2516).  `line_range` keeps the splatted tuple as a
list; its initial Python value `None` is modelled as `[]` (both crash the
later 4-tuple unpacking if ever reached unset). -/
structure ParseState where
  commands : List PyCmd
  current_content : List PyStr
  current_command_type : Option PyStr
  command_type : Option PyStr
  line_range : List Int
  in_content_block : Bool

/-- The initial parse state. -/
def initParseState : ParseState := ⟨[], [], none, none, [], false⟩

/-- The body of the `try` block for one recognised command line
(bootstrap.py:2550-2601), entered after the kind and mixing checks with
`current_command_type` already reassigned to `ct`: returns the state to
continue scanning with (`Sum.inl`), or the scan's error result
(`Sum.inr`). -/
def parseCmdLine (st : ParseState) (ct numTok : PyStr) (parts1 : Option PyStr) :
    ParseState ⊕ (Option (List PyCmd) × Option PyStr) :=
  let st := { st with current_command_type := some ct }
  if ct = pys "ADD" then
    match pyParseInt numTok with
    | none => .inr (none, some errNoValid)
    | some v =>
      let st := { st with line_range := [v, v] }
      match parts1 with
      | none => .inl { st with command_type := some ct }
      | some p1 =>
        match splitFirstSub (pys "<CONTENT_START>") p1 with
        | none => .inr (none, some errNoValid)
        | some (_, content_part) =>
          match splitFirstSub (pys "<CONTENT_END>") content_part with
          | some (before, _) =>
            .inl { st with
              commands := st.commands ++ [⟨ct, [v, v], before⟩],
              command_type := none,
              current_content := [],
              in_content_block := false }
          | none =>
            .inl { st with
              command_type := some ct,
              current_content := [content_part],
              in_content_block := true }
  else if ct = pys "REMOVE" then
    match (if pyIn (pys "-") numTok then
        (splitOnChar '-' numTok).mapM pyParseInt
      else (pyParseInt numTok).map (fun v => [v, v])) with
    | none => .inr (none, some errNoValid)
    | some nums =>
      match nums with
      | n0 :: n1 :: _ =>
        .inl { st with
          line_range := nums,
          commands := st.commands ++ [⟨pys "REMOVE", [n0, n1], []⟩],
          command_type := none }
      | _ => .inr (none, some errNoValid)
  else
    match (if pyIn (pys "-") numTok then
        (splitOnChar '-' numTok).mapM pyParseInt
      else (pyParseInt numTok).map (fun v => [v, v])) with
    | none => .inr (none, some errNoValid)
    | some nums =>
      let st := { st with line_range := nums }
      match parts1 with
      | none => .inl { st with command_type := some ct }
      | some p1 =>
        match splitFirstSub (pys "<CONTENT_START>") p1 with
        | none => .inr (none, some errNoValid)
        | some (_, content_part) =>
          match splitFirstSub (pys "<CONTENT_END>") content_part with
          | some (before, _) =>
            .inl { st with
              commands := st.commands ++ [⟨ct, nums, before⟩],
              command_type := none,
              current_content := [],
              in_content_block := false }
          | none =>
            .inl { st with
              command_type := some ct,
              current_content := if content_part = [] then [] else [content_part],
              in_content_block := true }

/-- The `while i < len(lines)` scan of `parse_modification_commands`
(bootstrap.py:2524-2618): blank lines outside a block are skipped; a line
whose stripped form starts with `'ADD '`/`'REMOVE '`/`'MODIFY '` is parsed
as a command (rejecting a kind different from `current_command_type` with
the mixing error that names both kinds, and malformed numbers/markers with
`errNoValid`); other lines extend an open content block; everything else
is ignored.  A `None` command type at a content-block append (unreachable)
is modelled as the empty string, which `applyCmd` likewise ignores. -/
def parseLoop (st : ParseState) : List PyStr → Option (List PyCmd) × Option PyStr
  | [] =>
    if st.commands = [] then (none, some errNoValid)
    else (some st.commands, none)
  | line :: rest =>
    let command_line := pyStrip line
    if command_line = [] ∧ st.in_content_block = false then parseLoop st rest
    else if pyStartsWith command_line (pys "ADD ") ||
        pyStartsWith command_line (pys "REMOVE ") ||
        pyStartsWith command_line (pys "MODIFY ") then
      let parts0 := match splitFirstChar ':' line with
        | none => line
        | some p => p.1
      let parts1 : Option PyStr := (splitFirstChar ':' line).map Prod.snd
      match pySplitWS (pyStrip parts0) with
      | [] => (none, some errNoValid)
      | [_] => (none, some errNoValid)
      | ct :: numTok :: _ =>
        if ¬ (ct = pys "ADD" ∨ ct = pys "REMOVE" ∨ ct = pys "MODIFY") then
          (none, some errNoValid)
        else
          match st.current_command_type with
          | some cur =>
            if ct ≠ cur then (none, some (mixError cur ct))
            else
              match parseCmdLine st ct numTok parts1 with
              | .inl st2 => parseLoop st2 rest
              | .inr res => res
          | none =>
            match parseCmdLine st ct numTok parts1 with
            | .inl st2 => parseLoop st2 rest
            | .inr res => res
    else if st.current_content ≠ [] ∧ st.in_content_block = true then
      match splitFirstSub (pys "<CONTENT_END>") line with
      | some (before, _) =>
        let content_text := (st.current_content ++ [before]).flatten
        parseLoop { st with
          commands := if content_text ≠ [] then
              st.commands ++ [⟨st.command_type.getD [], st.line_range, content_text⟩]
            else st.commands,
          current_content := st.current_content ++ [before],
          in_content_block := false,
          command_type := none } rest
      | none =>
        parseLoop { st with current_content := st.current_content ++ [line] } rest
    else parseLoop st rest

/-- Embeds `parse_modification_commands` (bootstrap.py:2505-2623): the
empty/blank reply check, then the line scan. -/
def parse_modification_commands (content : PyStr) :
    Option (List PyCmd) × Option PyStr :=
  if content = [] ∨ pyStrip content = [] then (none, some errNoValid)
  else parseLoop initParseState (splitLinesKeep content)

/-- Embeds `process_file_modifications` (bootstrap.py:2684-2692): a parse
error returns the file content unchanged with the error in both the
summary and error slots; otherwise the commands are applied.  The third
component models Python's `False`-or-string error value as
`Option PyStr`; the outer `none` models the crash of unpacking the
malformed results of `apply_modifications` (unreachable from the
dispatcher). -/
def process_file_modifications (file_content llm_response : PyStr) :
    Option (PyStr × PyStr × Option PyStr) :=
  match parse_modification_commands llm_response with
  | (_, some error) => some (file_content, error, some error)
  | (some cmds, none) =>
    (apply_modifications file_content cmds).map (fun r => (r.1, r.2.1, none))
  | (none, none) => none

/-!
## Well-formed single-line edit commands and their parse behaviour

The same-kind claim quantifies over edit batches; the batches are
formalised as renderings of lists of well-formed single-line commands.
-/

/-- Right strip: the trailing-whitespace half of `pyStrip`. -/
def rstrip (s : PyStr) : PyStr := (s.reverse.dropWhile isPySpace).reverse

/-- An abstract single-line edit command: the kind, the line-number token
(kept as the digit string the model wrote), and the payload for
ADD/MODIFY. -/
inductive SimpleCmd where
  | add (num content : PyStr)
  | remove (num : PyStr)
  | modify (num content : PyStr)
deriving DecidableEq

/-- The keyword of a command. -/
def SimpleCmd.kind : SimpleCmd → PyStr
  | .add _ _ => pys "ADD"
  | .remove _ => pys "REMOVE"
  | .modify _ _ => pys "MODIFY"

/-- The number token of a command. -/
def SimpleCmd.num : SimpleCmd → PyStr
  | .add n _ => n
  | .remove n => n
  | .modify n _ => n

/-- A nonempty all-digit line-number token. -/
def wfNum (n : PyStr) : Prop := n ≠ [] ∧ ∀ ch ∈ n, ch.isDigit

/-- A payload that stays on one physical line and does not contain (or
overlap into) an early `<CONTENT_END>` marker. -/
def wfContent (c : PyStr) : Prop :=
  (∀ ch ∈ c, isPyLineBreak ch = false) ∧
  ¬ (pys "<CONTENT_END>" <:+: c ++ (pys "<CONTENT_END>").dropLast)

/-- Well-formedness of a single-line command. -/
def SimpleCmd.wf : SimpleCmd → Prop
  | .add n c => wfNum n ∧ wfContent c
  | .remove n => wfNum n
  | .modify n c => wfNum n ∧ wfContent c

/-- The physical line the model writes for a command (with its trailing
newline). -/
def renderCmd : SimpleCmd → PyStr
  | .add n c => pys "ADD " ++ n ++ pys ":<CONTENT_START>" ++ c ++
      pys "<CONTENT_END>" ++ ['\n']
  | .remove n => pys "REMOVE " ++ n ++ ['\n']
  | .modify n c => pys "MODIFY " ++ n ++ pys ":<CONTENT_START>" ++ c ++
      pys "<CONTENT_END>" ++ ['\n']

/-- An edit batch: the concatenation of the rendered command lines. -/
def renderBatch (cs : List SimpleCmd) : PyStr := (cs.map renderCmd).flatten

/-- The `PyCmd` the scan appends for a command whose number token parses
to `v`. -/
def parsedCmd (c : SimpleCmd) (v : Int) : PyCmd :=
  match c with
  | .add _ ct => ⟨pys "ADD", [v, v], ct⟩
  | .remove _ => ⟨pys "REMOVE", [v, v], []⟩
  | .modify _ ct => ⟨pys "MODIFY", [v, v], ct⟩

/-- The parse state a recognised rendered command line leaves behind. -/
def stepParse (st : ParseState) (c : SimpleCmd) (v : Int) : ParseState :=
  match c with
  | .add _ ct =>
    ⟨st.commands ++ [⟨pys "ADD", [v, v], ct⟩], [], some (pys "ADD"), none,
      [v, v], false⟩
  | .remove _ =>
    ⟨st.commands ++ [⟨pys "REMOVE", [v, v], []⟩], st.current_content,
      some (pys "REMOVE"), none, [v, v], st.in_content_block⟩
  | .modify _ ct =>
    ⟨st.commands ++ [⟨pys "MODIFY", [v, v], ct⟩], [], some (pys "MODIFY"), none,
      [v, v], false⟩

instance wfNumDec (n : PyStr) : Decidable (wfNum n) :=
  decidable_of_iff (n ≠ [] ∧ ∀ ch ∈ n, ch.isDigit) Iff.rfl

instance wfContentDec (c : PyStr) : Decidable (wfContent c) :=
  decidable_of_iff ((∀ ch ∈ c, isPyLineBreak ch = false) ∧
    ¬ (pys "<CONTENT_END>" <:+: c ++ (pys "<CONTENT_END>").dropLast)) Iff.rfl

instance wfCmdDec : (c : SimpleCmd) → Decidable c.wf
  | .add n ct => decidable_of_iff (wfNum n ∧ wfContent ct) Iff.rfl
  | .remove n => decidable_of_iff (wfNum n) Iff.rfl
  | .modify n ct => decidable_of_iff (wfNum n ∧ wfContent ct) Iff.rfl

/-- The `run_part` computed by `parse_compound_command` is the last stripped
segment that does not start with `'cd '` (or `none` if there is none). -/
theorem parse_compound_run_part (command : PyStr) :
    (parse_compound_command command).2 = (nonCdSegments command).getLast? := by
  unfold parse_compound_command nonCdSegments
  generalize splitOnAmpAmp command = parts
  induction parts using List.reverseRecOn with
  | nil => rfl
  | append_singleton xs x ih =>
    simp only [List.foldl_append, List.foldl_cons, List.foldl_nil,
      List.map_append, List.filter_append, List.map_cons, List.map_nil]
    by_cases h : pyStartsWith (pyStrip x) (pys "cd ")
    · simp [h, ih]
    · simp [h, List.getLast?_append]

/-- All-nonspace input: `pySplitWSAux` yields the single accumulated token. -/
theorem pySplitWSAux_nonspace (name cur : PyStr)
    (h : ∀ c ∈ name, ¬ isPySpace c) (hne : cur.reverse ++ name ≠ []) :
    pySplitWSAux name cur = [cur.reverse ++ name] := by
  induction name generalizing cur with
  | nil =>
    simp only [List.append_nil] at hne ⊢
    have : cur ≠ [] := fun hc => hne (by simp [hc])
    simp [pySplitWSAux, this]
  | cons c cs ih =>
    have hc : ¬ isPySpace c := h c (by simp)
    simp only [pySplitWSAux, hc, Bool.false_eq_true, if_false]
    rw [ih (c :: cur) (fun d hd => h d (List.mem_cons_of_mem _ hd)) (by simp)]
    simp

/-- The run-part of `'npm run ' ++ name` splits into `['npm', 'run', name]`
for a nonempty all-nonspace `name`; hence the supervisor key is the npm
script name. -/
theorem pySplitWS_npm_run (name : PyStr)
    (h : ∀ c ∈ name, ¬ isPySpace c) (hne : name ≠ []) :
    pySplitWS (pys "npm run " ++ name) = [pys "npm", pys "run", name] := by
  have hdata : pys "npm run " = ['n', 'p', 'm', ' ', 'r', 'u', 'n', ' '] := rfl
  rw [hdata]
  show pySplitWSAux ('n' :: 'p' :: 'm' :: ' ' :: 'r' :: 'u' :: 'n' :: ' ' :: name) [] =
    [pys "npm", pys "run", name]
  simp only [pySplitWSAux, show isPySpace 'n' = false from rfl,
    show isPySpace 'p' = false from rfl, show isPySpace 'm' = false from rfl,
    show isPySpace ' ' = true from rfl, show isPySpace 'r' = false from rfl,
    show isPySpace 'u' = false from rfl, if_true, if_false,
    Bool.false_eq_true, reduceIte]
  rw [pySplitWSAux_nonspace name [] h (by simpa using hne)]
  rfl

/-- C7 counterexample: on `'python3 server.py'` the code keeps the whole
run-part as the key, not its last token as the claim states. -/
theorem C7_counterexample :
    get_process_key (pys "python3 server.py") = some (pys "python3 server.py") ∧
    claimed_process_key (pys "python3 server.py") = some (pys "server.py") ∧
    some (pys "python3 server.py") ≠ some (pys "server.py") := by
  refine ⟨by decide, by decide, by decide⟩

/-- C7 (amended): for every command whose compound parse yields a run-part
`r` (the last stripped non-`cd` segment), the supervisor key is the last
whitespace token of `r` — the npm script name — when `r` begins with
`'npm run'`, and otherwise the **entire** run-part `r`. -/
theorem C7_process_key_derivation (command r : PyStr)
    (h : (nonCdSegments command).getLast? = some r) :
    (get_process_key command =
      if pyStartsWith r (pys "npm run") then (pySplitWS r).getLast? else some r) ∧
    (∀ name : PyStr, (∀ c ∈ name, ¬ isPySpace c) → name ≠ [] →
      r = pys "npm run " ++ name → get_process_key command = some name) := by
  have hrun : (parse_compound_command command).2 = some r := by
    rw [parse_compound_run_part, h]
  constructor
  · unfold get_process_key
    rw [hrun]
  · intro name hns hne hr
    subst hr
    unfold get_process_key
    rw [hrun]
    have hpre : pyStartsWith (pys "npm run " ++ name) (pys "npm run") = true := by
      unfold pyStartsWith
      rw [List.isPrefixOf_iff_prefix]
      exact ⟨' ' :: name, rfl⟩
    show (if pyStartsWith (pys "npm run " ++ name) (pys "npm run") = true then
        (pySplitWS (pys "npm run " ++ name)).getLast?
      else some (pys "npm run " ++ name)) = some name
    rw [if_pos hpre, pySplitWS_npm_run name hns hne]
    rfl

/-- C7 amended-claim witness at `'cd x && npm run dev'`. -/
theorem C7_process_key_derivation_witness :
    (nonCdSegments (pys "cd x && npm run dev")).getLast? = some (pys "npm run dev") ∧
    get_process_key (pys "cd x && npm run dev") = some (pys "dev") := by
  refine ⟨by decide, ?_⟩
  exact (C7_process_key_derivation (pys "cd x && npm run dev") (pys "npm run dev")
    (by decide)).2 (pys "dev") (by decide) (by decide) (by decide)

/-- C9: in a compound command with at least two non-`cd` segments, only the
last such segment becomes the launched process command
(`run_continuous_process`'s `run_command`); every earlier non-`cd` segment
is dropped by `parse_compound_command`'s overwrite of `run_part`. -/
theorem C9_last_segment_only (command r : PyStr)
    (_hlen : 2 ≤ (nonCdSegments command).length)
    (hlast : (nonCdSegments command).getLast? = some r) (hne : r ≠ []) :
    planned_run_command command = r := by
  unfold planned_run_command
  rw [parse_compound_run_part, hlast]
  simp [hne]

/-- C9 witness at `'make build && ./server'`: only `'./server'` is launched;
`'make build'` is silently discarded. -/
theorem C9_last_segment_only_witness :
    2 ≤ (nonCdSegments (pys "make build && ./server")).length ∧
    (nonCdSegments (pys "make build && ./server")).getLast? = some (pys "./server") ∧
    planned_run_command (pys "make build && ./server") = pys "./server" := by
  refine ⟨by decide, by decide, ?_⟩
  exact C9_last_segment_only (pys "make build && ./server") (pys "./server")
    (by decide) (by decide) (by decide)

/-- C10: when every `'&&'` segment of a command starts with `'cd '`, the
run-part is Python `None`, so `get_process_key` raises an uncaught
`AttributeError` (modelled `none`), and both `check_process_output` and
`restart_process` crash instead of returning an error result. -/
theorem C10_all_cd_crash (command : PyStr) (procs : List ProcEntry)
    (h : ∀ part ∈ splitOnAmpAmp command, pyStartsWith (pyStrip part) (pys "cd ")) :
    get_process_key command = none ∧
    check_process_output procs command = none ∧
    restart_process procs command = none := by
  have hseg : nonCdSegments command = [] := by
    unfold nonCdSegments
    rw [List.filter_eq_nil_iff]
    intro a ha
    obtain ⟨part, hpart, rfl⟩ := List.mem_map.1 ha
    simp [h part hpart]
  have hkey : get_process_key command = none := by
    unfold get_process_key
    rw [parse_compound_run_part, hseg]
    rfl
  refine ⟨hkey, ?_, ?_⟩
  · unfold check_process_output
    rw [hkey]
  · unfold restart_process
    rw [hkey]

/-- C10 witness at `CHECK`/`RESTART` of `'cd devlm-identity'`. -/
theorem C10_all_cd_crash_witness :
    (∀ part ∈ splitOnAmpAmp (pys "cd devlm-identity"),
        pyStartsWith (pyStrip part) (pys "cd ")) ∧
    check_process_output [] (pys "cd devlm-identity") = none := by
  refine ⟨by decide, (C10_all_cd_crash (pys "cd devlm-identity") [] (by decide)).2.1⟩

/-- C4: the sent prompt is always at most 200,000 characters, and an
over-long prompt is cut to exactly 200,000 and flagged in the local
`Global_error` — but, because the `global` declaration is missing, the
module global is unchanged and the next iteration's prompt contains no
truncation banner. -/
theorem C4_truncation_without_banner (st : TransportGlobals) (prompt : PyStr)
    (hlen : GLOBAL_MAX_PROMPT_LENGTH < prompt.length)
    (hinit : st.globalError = []) :
    (∀ p : PyStr, (generate_response_clamp st p).1.length ≤ GLOBAL_MAX_PROMPT_LENGTH) ∧
    (generate_response_clamp st prompt).1.length = GLOBAL_MAX_PROMPT_LENGTH ∧
    (generate_response_clamp st prompt).2.1 = GLOBAL_ERROR_PROMPT_LENGTH ∧
    (generate_response_clamp st prompt).2.2 = st ∧
    prompt_global_error_block (generate_response_clamp st prompt).2.2 = [] := by
  have hbound : ∀ p : PyStr,
      (generate_response_clamp st p).1.length ≤ GLOBAL_MAX_PROMPT_LENGTH := by
    intro p
    unfold generate_response_clamp
    by_cases hp : p.length > GLOBAL_MAX_PROMPT_LENGTH
    · rw [if_pos hp]
      simp [List.length_take]
    · rw [if_neg hp]
      show p.length ≤ GLOBAL_MAX_PROMPT_LENGTH
      omega
  have hsent : generate_response_clamp st prompt =
      (prompt.take GLOBAL_MAX_PROMPT_LENGTH, GLOBAL_ERROR_PROMPT_LENGTH, st) := by
    unfold generate_response_clamp
    rw [if_pos hlen]
  refine ⟨hbound, ?_, ?_, ?_, ?_⟩
  · rw [hsent]
    simp only [List.length_take]
    unfold GLOBAL_MAX_PROMPT_LENGTH at hlen ⊢
    omega
  · rw [hsent]
  · rw [hsent]
  · rw [hsent]
    simp [prompt_global_error_block, hinit]

/-- C4 witness: a 200,001-character prompt from the pristine global state. -/
theorem C4_truncation_without_banner_witness :
    GLOBAL_MAX_PROMPT_LENGTH < (List.replicate 200001 'a' : PyStr).length ∧
    (generate_response_clamp ⟨[]⟩ (List.replicate 200001 'a')).1.length =
      GLOBAL_MAX_PROMPT_LENGTH ∧
    prompt_global_error_block (generate_response_clamp ⟨[]⟩
      (List.replicate 200001 'a')).2.2 = [] := by
  have hrep : (List.replicate 200001 'a' : PyStr).length = 200001 :=
    List.length_replicate 200001 'a'
  have hgt : GLOBAL_MAX_PROMPT_LENGTH < (List.replicate 200001 'a' : PyStr).length := by
    rw [hrep]
    unfold GLOBAL_MAX_PROMPT_LENGTH
    omega
  have h := C4_truncation_without_banner ⟨[]⟩ (List.replicate 200001 'a') hgt rfl
  exact ⟨hgt, h.2.1, h.2.2.2.2⟩

/-- Whatever the RAW/INDEF branches record as output is at most 12,000
characters long. -/
theorem recorded_output_raw_indef_length (output : PyStr) :
    (recorded_output_raw_indef output).length ≤ 12000 := by
  unfold recorded_output_raw_indef
  by_cases h : output.length < 12000
  · rw [if_pos h]
    simp only [List.length_take]
    omega
  · rw [if_neg h]
    decide

/-- C5 counterexample: a 12,000-character output is not stored truncated —
RAW/INDEF store the fixed placeholder string and RUN stores nothing. -/
theorem C5_counterexample :
    recorded_output_raw_indef (List.replicate 12000 'e') ≠
      (List.replicate 12000 'e' : PyStr).take 12000 ∧
    recorded_output_run (List.replicate 12000 'e') = none := by
  have hlen12 : (List.replicate 12000 'e' : PyStr).length = 12000 :=
    List.length_replicate 12000 'e'
  have hnot : ¬ (List.replicate 12000 'e' : PyStr).length < 12000 := by
    rw [hlen12]
    omega
  constructor
  · unfold recorded_output_raw_indef
    rw [if_neg hnot]
    intro hEq
    have hlen := congrArg List.length hEq
    rw [List.length_take, hlen12] at hlen
    have h30 : (pys "Output truncated due to length").length = 30 := by decide
    omega
  · unfold recorded_output_run
    rw [if_neg hnot]

/-- C5 (amended): the success flag is always recorded; outputs shorter than
12,000 characters are recorded verbatim; an output of 12,000 characters or
more is replaced by the fixed string `"Output truncated due to length"` on
RAW/INDEF records and omitted from RUN records; any recorded output is at
most 12,000 characters. -/
theorem C5_output_recording (output : PyStr) (success : Bool) :
    ((raw_indef_entry output success).success = success ∧
     (run_entry output success).success = success) ∧
    (output.length < 12000 →
      (raw_indef_entry output success).output = some output ∧
      (run_entry output success).output = some output) ∧
    (12000 ≤ output.length →
      (raw_indef_entry output success).output =
        some (pys "Output truncated due to length") ∧
      (run_entry output success).output = none) ∧
    (∀ o, (raw_indef_entry output success).output = some o → o.length ≤ 12000) := by
  refine ⟨⟨rfl, rfl⟩, ?_, ?_, ?_⟩
  · intro h
    constructor
    · show some (recorded_output_raw_indef output) = some output
      unfold recorded_output_raw_indef
      rw [if_pos h, List.take_of_length_le (le_of_lt h)]
    · show recorded_output_run output = some output
      unfold recorded_output_run
      rw [if_pos h]
  · intro h
    have h' : ¬ output.length < 12000 := by omega
    constructor
    · show some (recorded_output_raw_indef output) = some _
      unfold recorded_output_raw_indef
      rw [if_neg h']
    · show recorded_output_run output = none
      unfold recorded_output_run
      rw [if_neg h']
  · intro o ho
    simp only [raw_indef_entry, Option.some.injEq] at ho
    rw [← ho]
    exact recorded_output_raw_indef_length output

/-- C5 amended-claim witness: a short failing command's stderr is stored
verbatim with `success = false`. -/
theorem C5_output_recording_witness :
    (pys "error: exit 1").length < 12000 ∧
    (raw_indef_entry (pys "error: exit 1") false).output = some (pys "error: exit 1") ∧
    (raw_indef_entry (pys "error: exit 1") false).success = false := by
  have h := C5_output_recording (pys "error: exit 1") false
  exact ⟨by decide, (h.2.1 (by decide)).1, h.1.1⟩

/-- Setting a key makes it readable back. -/
theorem dictGet_dictSet_self (d : List (PyStr × PyStr)) (k v : PyStr) :
    dictGet (dictSet d k v) k = some v := by
  induction d with
  | nil => simp [dictSet, dictGet, List.find?]
  | cons kv rest ih =>
    by_cases h : kv.1 == k
    · simp [dictSet, h, dictGet, List.find?]
    · simp only [dictSet, h, Bool.false_eq_true, if_false]
      simp only [dictGet, List.find?, h] at ih ⊢
      exact ih

/-- C6: a `'go run'` command with no recorded decision is not executed on
the first RUN — the suggestion is returned and the command is marked
`suggested_indef`; an identical second RUN is then executed in the
foreground and the mark becomes `not_indefinite`. -/
theorem C6_go_run_two_step (decisions : List (PyStr × PyStr))
    (approve : PyStr → Bool) (c : PyStr)
    (hgo : pyIn (pys "go run") c = true)
    (hnew : dictGet decisions c = none)
    (hind : pyStartsWith (pyUpper c) (pys "INDEF:") = false)
    (hchk : pyStartsWith (pyUpper c) (pys "CHECK:") = false)
    (hraw : pyStartsWith c (pys "RAW:") = false)
    (hrun : pyStartsWith (pyUpper c) (pys "RUN:") = false)
    (happ : APPROVAL_REQUIRED_COMMANDS.any (fun p => pyStartsWith c p) = false) :
    (execute_command false approve decisions c).2 =
      .suggestionOnly LONG_RUNNING_SUGGESTION ∧
    dictGet (execute_command false approve decisions c).1 c =
      some (pys "suggested_indef") ∧
    (execute_command false approve (execute_command false approve decisions c).1 c).2 =
      .foreground c 600 ∧
    dictGet (execute_command false approve
        (execute_command false approve decisions c).1 c).1 c =
      some (pys "not_indefinite") := by
  have h1 : execute_command false approve decisions c =
      (dictSet decisions c (pys "suggested_indef"),
        .suggestionOnly LONG_RUNNING_SUGGESTION) := by
    unfold execute_command
    simp only [Bool.false_and, Bool.false_eq_true, if_false, hind, hchk, hraw, hrun,
      hgo, hnew, Option.isNone_none, Bool.and_true, if_true]
  have h2 : dictGet (dictSet decisions c (pys "suggested_indef")) c =
      some (pys "suggested_indef") := dictGet_dictSet_self ..
  have h3 : execute_command false approve
      (dictSet decisions c (pys "suggested_indef")) c =
      (dictSet (dictSet decisions c (pys "suggested_indef")) c (pys "not_indefinite"),
        .foreground c 600) := by
    unfold execute_command
    simp only [Bool.false_and, Bool.false_eq_true, if_false, hind, hchk, hraw, hrun,
      hgo, h2, Option.isNone_some, Bool.and_false, if_true, happ, if_pos rfl]
  refine ⟨by rw [h1], by rw [h1]; exact h2, by rw [h1, h3], ?_⟩
  rw [h1, h3]
  exact dictGet_dictSet_self ..

/-- C6 witness at `'go run cmd/api/main.go'` from an empty decision table. -/
theorem C6_go_run_two_step_witness :
    pyIn (pys "go run") (pys "go run cmd/api/main.go") = true ∧
    (execute_command false (fun _ => true) [] (pys "go run cmd/api/main.go")).2 =
      .suggestionOnly LONG_RUNNING_SUGGESTION ∧
    (execute_command false (fun _ => true)
      (execute_command false (fun _ => true) [] (pys "go run cmd/api/main.go")).1
      (pys "go run cmd/api/main.go")).2 =
      .foreground (pys "go run cmd/api/main.go") 600 := by
  have h := C6_go_run_two_step [] (fun _ => true) (pys "go run cmd/api/main.go")
    (by decide) (by decide) (by decide) (by decide) (by decide) (by decide) (by decide)
  exact ⟨by decide, h.1, h.2.2.1⟩

/-- C1 counterexample: after an identity edit of `foo.go` and one refused
re-edit, the code leaves the counter at 2 (refused iterations `continue`
past the decrement), so a third `READ;MODIFY` is still refused — under the
claim's every-iteration decrement the counter would be gone and the third
edit applied. -/
theorem C1_counterexample :
    (runLock emptyLock [LoopAction.readModify (pys "foo.go") true,
        LoopAction.readModify (pys "foo.go") false]) (pys "foo.go") = some 2 ∧
    (lockStep (runLock emptyLock [LoopAction.readModify (pys "foo.go") true,
        LoopAction.readModify (pys "foo.go") false])
      (LoopAction.readModify (pys "foo.go") false)).2 = LoopOutcome.editRefused ∧
    (claimRunLock emptyLock [LoopAction.readModify (pys "foo.go") true,
        LoopAction.readModify (pys "foo.go") false]) (pys "foo.go") = none ∧
    (claimLockStep (claimRunLock emptyLock [LoopAction.readModify (pys "foo.go") true,
        LoopAction.readModify (pys "foo.go") false])
      (LoopAction.readModify (pys "foo.go") false)).2 = LoopOutcome.editApplied ∧
    LoopOutcome.editRefused ≠ LoopOutcome.editApplied := by
  refine ⟨by decide, by decide, by decide, by decide, by decide⟩

/-- A path absent from the table stays absent along any run that never
`READ;MODIFY`-es it. -/
theorem runLock_none (p : PyStr) (u : List LoopAction) :
    ∀ st : LockTable, st p = none → (∀ b, LoopAction.readModify p b ∉ u) →
    runLock st u p = none := by
  induction u with
  | nil => intro st h _; exact h
  | cons a rest ih =>
    intro st h hnp
    have hrest : ∀ b, LoopAction.readModify p b ∉ rest := fun b hb =>
      hnp b (List.mem_cons_of_mem _ hb)
    cases a with
    | readModify q b =>
      have hq : q ≠ p := fun he =>
        hnp b (by rw [he]; exact List.mem_cons_self _ _)
      show runLock (lockStep st (.readModify q b)).1 rest p = none
      simp only [lockStep]
      by_cases h1 : ((st q).getD 0) > 0
      · rw [if_pos h1]; exact ih st h hrest
      · rw [if_neg h1]
        by_cases h2 : b = true
        · subst h2
          simp only [if_true]
          refine ih _ ?_ hrest
          simp only [lockSet]
          rw [if_neg (Ne.symm hq), h]
        · simp only [h2, Bool.false_eq_true, if_false]
          refine ih _ ?_ hrest
          simp [decrement_unchanged, h]
    | completing =>
      refine ih _ ?_ hrest
      simp [lockStep, decrement_unchanged, h]
    | erroring => exact ih st h hrest

/-- While a path is locked with counter `c > 0`, its entry after running
actions that never `READ;MODIFY` it is `c` minus the number of
decrement-reaching iterations, and it disappears once that count reaches
`c`. -/
theorem runLock_lockGet (p : PyStr) (u : List LoopAction) :
    ∀ (st : LockTable) (c : Int), st p = some c → 0 < c →
    (∀ b, LoopAction.readModify p b ∉ u) →
    runLock st u p =
      if (decSteps st u : Int) < c then some (c - decSteps st u) else none := by
  induction u with
  | nil =>
    intro st c h hc _
    simp only [runLock, decSteps, Nat.cast_zero]
    rw [if_pos hc]
    simpa using h
  | cons a rest ih =>
    intro st c h hc hnp
    have hrest : ∀ b, LoopAction.readModify p b ∉ rest := fun b hb =>
      hnp b (List.mem_cons_of_mem _ hb)
    have hdec : ∀ st' : LockTable, st' p = some c →
        runLock (decrement_unchanged st') rest p =
          if ((1 + decSteps (decrement_unchanged st') rest : Nat) : Int) < c then
            some (c - (1 + decSteps (decrement_unchanged st') rest : Nat))
          else none := by
      intro st' h'
      by_cases hc1 : c = 1
      · subst hc1
        have hnone : (decrement_unchanged st') p = none := by
          unfold decrement_unchanged
          rw [h']
          show (if (1 : Int) - 1 = 0 then none else some ((1 : Int) - 1)) = none
          rw [if_pos (by omega)]
        rw [runLock_none p rest _ hnone hrest]
        rw [if_neg (by push_cast; omega)]
      · have hstep : (decrement_unchanged st') p = some (c - 1) := by
          unfold decrement_unchanged
          rw [h']
          show (if c - 1 = 0 then none else some (c - 1)) = some (c - 1)
          rw [if_neg (by omega)]
        rw [ih _ (c - 1) hstep (by omega) hrest]
        by_cases hlt : ((decSteps (decrement_unchanged st') rest : Nat) : Int) < c - 1
        · rw [if_pos hlt, if_pos (by push_cast at hlt ⊢; omega)]
          congr 1
          push_cast
          ring
        · rw [if_neg hlt, if_neg (by push_cast at hlt ⊢; omega)]
    cases a with
    | readModify q b =>
      have hq : q ≠ p := fun he =>
        hnp b (by rw [he]; exact List.mem_cons_self _ _)
      show runLock (lockStep st (.readModify q b)).1 rest p =
        if ((decSteps st (.readModify q b :: rest) : Nat) : Int) < c then
          some (c - decSteps st (.readModify q b :: rest)) else none
      by_cases h1 : ((st q).getD 0) > 0
      · have hs : lockStep st (.readModify q b) = (st, .editRefused) := by
          simp only [lockStep]
          rw [if_pos h1]
        rw [show decSteps st (.readModify q b :: rest) = decSteps st rest by
          simp [decSteps, hs]]
        rw [hs]
        exact ih st c h hc hrest
      · by_cases h2 : b = true
        · subst h2
          have hs : lockStep st (.readModify q true) = (lockSet st q 2, .lockInserted) := by
            simp only [lockStep]
            rw [if_neg h1]
            simp
          have hset : (lockSet st q 2) p = some c := by
            simp only [lockSet]
            rw [if_neg (Ne.symm hq), h]
          rw [show decSteps st (.readModify q true :: rest) =
              decSteps (lockSet st q 2) rest by simp [decSteps, hs]]
          rw [hs]
          exact ih _ c hset hc hrest
        · have hs : lockStep st (.readModify q b) = (decrement_unchanged st, .editApplied) := by
            simp only [lockStep]
            rw [if_neg h1]
            simp [h2]
          rw [show decSteps st (.readModify q b :: rest) =
              1 + decSteps (decrement_unchanged st) rest by simp [decSteps, hs]]
          rw [hs]
          exact hdec st h
    | completing =>
      have hs : lockStep st .completing = (decrement_unchanged st, .completed) := rfl
      rw [show decSteps st (.completing :: rest) =
          1 + decSteps (decrement_unchanged st) rest by simp [decSteps, hs]]
      rw [show runLock st (.completing :: rest) = runLock (decrement_unchanged st) rest
        from rfl]
      exact hdec st h
    | erroring =>
      rw [show decSteps st (.erroring :: rest) = decSteps st rest by
        simp [decSteps, lockStep]]
      exact ih st c h hc hrest

/-- C1 (amended): an identity edit inserts the path with counter 2; the
counter is decremented (and dropped at 0) only at the end of iterations
that reach the end of the loop body — refused edits, identity edits and
error branches `continue` past the decrement; consequently a further
`READ;MODIFY` of the path is refused before the rewriting LLM call while
fewer than 2 such completing iterations have passed, and the path is
editable again as soon as 2 have. -/
theorem C1_identity_edit_lockout (m : LockTable) (p : PyStr) (t : List LoopAction)
    (hfree : m p = none)
    (hnotp : ∀ b, LoopAction.readModify p b ∉ t) :
    (lockStep m (.readModify p true)).2 = .lockInserted ∧
    (lockStep m (.readModify p true)).1 p = some 2 ∧
    (∀ u, u <+: t → (decSteps (lockStep m (.readModify p true)).1 u) < 2 →
      (lockStep (runLock (lockStep m (.readModify p true)).1 u)
        (.readModify p false)).2 = .editRefused) ∧
    (∀ u, u <+: t → 2 ≤ decSteps (lockStep m (.readModify p true)).1 u →
      runLock (lockStep m (.readModify p true)).1 u p = none ∧
      (lockStep (runLock (lockStep m (.readModify p true)).1 u)
        (.readModify p false)).2 = .editApplied) := by
  have hs : lockStep m (.readModify p true) = (lockSet m p 2, .lockInserted) := by
    simp only [lockStep]
    rw [if_neg (by rw [hfree]; simp)]
    simp
  have hval : (lockStep m (.readModify p true)).1 p = some 2 := by
    rw [hs]; simp [lockSet]
  refine ⟨by rw [hs], hval, ?_, ?_⟩
  · intro u hu hd
    have hnu : ∀ b, LoopAction.readModify p b ∉ u := fun b hb =>
      hnotp b (hu.subset hb)
    have := runLock_lockGet p u (lockStep m (.readModify p true)).1 2 hval
      (by omega) hnu
    rw [if_pos (by omega)] at this
    generalize hW : runLock (lockStep m (.readModify p true)).1 u = W at this ⊢
    simp only [lockStep]
    rw [if_pos (by rw [this]; simp only [Option.getD_some]; omega)]
  · intro u hu hd
    have hnu : ∀ b, LoopAction.readModify p b ∉ u := fun b hb =>
      hnotp b (hu.subset hb)
    have := runLock_lockGet p u (lockStep m (.readModify p true)).1 2 hval
      (by omega) hnu
    rw [if_neg (by omega)] at this
    generalize hW : runLock (lockStep m (.readModify p true)).1 u = W at this ⊢
    refine ⟨this, ?_⟩
    simp only [lockStep]
    rw [if_neg (by rw [this]; simp)]
    simp

/-- C1 amended-claim witness: lock `foo.go`, then two completing
iterations elapse; the third `READ;MODIFY` applies while the first two were
refused. -/
theorem C1_identity_edit_lockout_witness :
    (emptyLock (pys "foo.go") = none) ∧
    (lockStep (runLock (lockStep emptyLock (.readModify (pys "foo.go") true)).1
        [LoopAction.completing]) (.readModify (pys "foo.go") false)).2 =
      LoopOutcome.editRefused ∧
    (lockStep (runLock (lockStep emptyLock (.readModify (pys "foo.go") true)).1
        [LoopAction.completing, LoopAction.completing])
      (.readModify (pys "foo.go") false)).2 = LoopOutcome.editApplied := by
  have h := C1_identity_edit_lockout emptyLock (pys "foo.go")
    [LoopAction.completing, LoopAction.completing] rfl (by decide)
  refine ⟨rfl, ?_, ?_⟩
  · exact h.2.2.1 [LoopAction.completing] (by simp) (by decide)
  · exact (h.2.2.2 [LoopAction.completing, LoopAction.completing]
      List.prefix_rfl (by decide)).2

/-- C3 failing run: starting at iteration 1, the trace INSPECT {a.go};
other; INSPECT {a.go}; INSPECT {a.go} ends with two immediately consecutive
INSPECTs of the same set (iterations 3 and 4), yet the fourth iteration's
INSPECT is accepted, because the guard additionally requires the last
refusal to be exactly one iteration old — the guard does fire on the
start-adjacent repeat (iterations 1 → 2), showing the refusal branch is
reachable. -/
theorem C3_consecutive_inspect_allowed :
    (inspectStep (runInspect (initInspectState 1)
        [IterAction.inspect [pys "a.go"], IterAction.other,
         IterAction.inspect [pys "a.go"]])
      (.inspect [pys "a.go"])).2 = InspectOutcome.inspected ∧
    pySetEq [pys "a.go"]
      (runInspect (initInspectState 1)
        [IterAction.inspect [pys "a.go"], IterAction.other,
         IterAction.inspect [pys "a.go"]]).last_inspected_files = true ∧
    (inspectStep (runInspect (initInspectState 1) [IterAction.inspect [pys "a.go"]])
      (.inspect [pys "a.go"])).2 = InspectOutcome.refused := by
  refine ⟨by decide, by decide, by decide⟩

/-- Step equation: splitting a string whose head is the separator. -/
theorem splitOnChar_cons_eq (sep : Char) (cs : PyStr) :
    splitOnChar sep (sep :: cs) = [] :: splitOnChar sep cs := by
  simp [splitOnChar]

/-- Step equation: splitting a string whose head is not the separator,
given the split of the tail. -/
theorem splitOnChar_cons_ne (sep c : Char) (cs : PyStr) (h : ¬ c = sep)
    (l : PyStr) (ls : List PyStr) (hsp : splitOnChar sep cs = l :: ls) :
    splitOnChar sep (c :: cs) = (c :: l) :: ls := by
  simp [splitOnChar, h, hsp]

/-- `splitOnChar` never returns the empty list. -/
theorem splitOnChar_ne_nil (sep : Char) (s : PyStr) : splitOnChar sep s ≠ [] := by
  induction s with
  | nil => simp [splitOnChar]
  | cons c cs ih =>
    by_cases h : c = sep
    · subst h
      rw [splitOnChar_cons_eq]
      simp
    · rcases hsp : splitOnChar sep cs with _ | ⟨l, ls⟩
      · exact absurd hsp ih
      · rw [splitOnChar_cons_ne sep c cs h l ls hsp]
        simp

/-- No piece produced by `splitOnChar` contains the separator. -/
theorem splitOnChar_not_mem (sep : Char) (s : PyStr) :
    ∀ l ∈ splitOnChar sep s, sep ∉ l := by
  induction s with
  | nil =>
    intro l hl
    simp [splitOnChar] at hl
    simp [hl]
  | cons c cs ih =>
    intro l hl
    by_cases h : c = sep
    · subst h
      rw [splitOnChar_cons_eq] at hl
      rcases List.mem_cons.1 hl with hl | hl
      · simp [hl]
      · exact ih l hl
    · rcases hsp : splitOnChar sep cs with _ | ⟨m, ms⟩
      · exact absurd hsp (splitOnChar_ne_nil sep cs)
      · rw [splitOnChar_cons_ne sep c cs h m ms hsp] at hl
        rcases List.mem_cons.1 hl with hl | hl
        · subst hl
          intro hmem
          rcases List.mem_cons.1 hmem with h1 | h1
          · exact h h1.symm
          · exact ih m (by rw [hsp]; exact List.mem_cons_self _ _) h1
        · exact ih l (by rw [hsp]; exact List.mem_cons_of_mem _ hl)

/-- `joinNl` of a list with a cons'd first element. -/
theorem joinNl_cons_cons (c : Char) (l : PyStr) (ls : List PyStr) :
    joinNl ((c :: l) :: ls) = c :: joinNl (l :: ls) := by
  cases ls with
  | nil => rfl
  | cons m ms => rfl

/-- Splitting and rejoining on newlines is the identity on contents. -/
theorem joinNl_splitNl (s : PyStr) : joinNl (splitNl s) = s := by
  unfold splitNl
  induction s with
  | nil => rfl
  | cons c cs ih =>
    by_cases h : c = '\n'
    · subst h
      rw [splitOnChar_cons_eq]
      rcases hsp : splitOnChar '\n' cs with _ | ⟨l, ls⟩
      · exact absurd hsp (splitOnChar_ne_nil '\n' cs)
      · rw [hsp] at ih
        show ([] : PyStr) ++ '\n' :: joinNl (l :: ls) = '\n' :: cs
        rw [List.nil_append, ih]
    · rcases hsp : splitOnChar '\n' cs with _ | ⟨l, ls⟩
      · exact absurd hsp (splitOnChar_ne_nil '\n' cs)
      · rw [splitOnChar_cons_ne '\n' c cs h l ls hsp]
        rw [hsp] at ih
        rw [joinNl_cons_cons, ih]

/-- A newline-free string splits to itself. -/
theorem splitNl_of_not_mem (l : PyStr) (h : '\n' ∉ l) : splitNl l = [l] := by
  unfold splitNl
  induction l with
  | nil => rfl
  | cons c cs ih =>
    have hc : ¬ c = '\n' := fun he => h (by rw [he]; exact List.mem_cons_self _ _)
    have htail := ih (fun hm => h (List.mem_cons_of_mem _ hm))
    rw [splitOnChar_cons_ne '\n' c cs hc cs [] htail]

/-- Splitting after appending a newline and a tail. -/
theorem splitNl_append_newline (l t : PyStr) (h : '\n' ∉ l) :
    splitNl (l ++ '\n' :: t) = l :: splitNl t := by
  unfold splitNl
  induction l with
  | nil =>
    show splitOnChar '\n' ('\n' :: t) = [] :: splitOnChar '\n' t
    exact splitOnChar_cons_eq '\n' t
  | cons c cs ih =>
    have hc : ¬ c = '\n' := fun he => h (by rw [he]; exact List.mem_cons_self _ _)
    have htail := ih (fun hm => h (List.mem_cons_of_mem _ hm))
    show splitOnChar '\n' (c :: (cs ++ '\n' :: t)) = (c :: cs) :: splitOnChar '\n' t
    exact splitOnChar_cons_ne '\n' c _ hc cs (splitOnChar '\n' t) htail

/-- Rejoining and resplitting newline-free lines is the identity. -/
theorem splitNl_joinNl (ls : List PyStr) (hne : ls ≠ [])
    (h : ∀ l ∈ ls, '\n' ∉ l) : splitNl (joinNl ls) = ls := by
  induction ls with
  | nil => exact absurd rfl hne
  | cons l rest ih =>
    cases rest with
    | nil =>
      show splitNl (joinNl [l]) = [l]
      show splitNl l = [l]
      exact splitNl_of_not_mem l (h l (List.mem_cons_self _ _))
    | cons m ms =>
      show splitNl (l ++ '\n' :: joinNl (m :: ms)) = l :: m :: ms
      rw [splitNl_append_newline l _ (h l (List.mem_cons_self _ _))]
      rw [ih (by simp) (fun x hx => h x (List.mem_cons_of_mem _ hx))]

/-- Inserting `N` after position `n` and then dropping it again: the two
slice facts the ADD/REMOVE round trip rests on. -/
theorem take_drop_insert (L N : List PyStr) (n : Nat) (h : n ≤ L.length) :
    (L.take n ++ N ++ L.drop n).take n = L.take n ∧
    (L.take n ++ N ++ L.drop n).drop (n + N.length) = L.drop n := by
  have hlen : (L.take n).length = n := by
    rw [List.length_take]
    omega
  have hlen2 : (L.take n ++ N).length = n + N.length := by
    rw [List.length_append, hlen]
  constructor
  · rw [List.take_append_eq_append_take, hlen2,
      List.take_append_eq_append_take, hlen]
    simp [List.take_take]
  · rw [List.drop_append_eq_append_drop, hlen2, Nat.sub_self, List.drop_zero,
      List.drop_eq_nil_of_le hlen2.le, List.nil_append]

/-- `apply_modifications` on a single command whose `applyCmd` step is
known. -/
theorem apply_modifications_single (fc : PyStr) (c : PyCmd)
    (lines' : List PyStr) (adj' : Int) (sum' : List PyStr)
    (h : applyCmd (splitNl fc) 0 [] c = some (lines', adj', sum')) :
    apply_modifications fc [c] = some (joinNl lines', joinNl sum', false) := by
  unfold apply_modifications
  rw [if_neg (by simp)]
  show ((applyCmd (splitNl fc) 0 [] c).bind
    (fun b => List.foldlM (fun acc c => applyCmd acc.1 acc.2.1 acc.2.2 c) b [])).map
      (fun res => (joinNl res.1, joinNl res.2.2, false)) = _
  rw [h]
  rfl

/-- Deleting the slice `[x, max x y)` that exactly covers an inserted
block restores the original list. -/
theorem del_insert (L N : List PyStr) (n : Nat) (h : n ≤ L.length)
    (x y : Nat) (hx : x = n) (hy : y = n + N.length) :
    (L.take n ++ N ++ L.drop n).take x ++
      (L.take n ++ N ++ L.drop n).drop (max x y) = L := by
  obtain ⟨htake, hdrop⟩ := take_drop_insert L N n h
  rw [hx, hy, show max n (n + N.length) = n + N.length by omega, htake, hdrop,
    List.take_append_drop]

/-- C8: `ADD n: X` followed by `REMOVE (n+1)-(n+k)`, where `k` is the line
count of `X`, restores the original file content, for every in-range
1-based line number `n`. -/
theorem C8_add_remove_round_trip (fc X : PyStr) (n : Nat)
    (h1 : 1 ≤ n) (h2 : n ≤ (splitNl fc).length) :
    ∃ s1 s2 : PyStr,
      apply_modifications fc [⟨pys "ADD", [(n : Int), (n : Int)], X⟩] =
        some (joinNl ((splitNl fc).take n ++ splitNl X ++ (splitNl fc).drop n),
          s1, false) ∧
      apply_modifications
        (joinNl ((splitNl fc).take n ++ splitNl X ++ (splitNl fc).drop n))
        [⟨pys "REMOVE", [(n : Int) + 1, (n : Int) + ((splitNl X).length : Int)], []⟩] =
        some (fc, s2, false) := by
  have hkpos : 0 < (splitNl X).length :=
    List.length_pos.2 (splitOnChar_ne_nil '\n' X)
  -- the ADD step
  have hadd : applyCmd (splitNl fc) 0 [] ⟨pys "ADD", [(n : Int), (n : Int)], X⟩ =
      some ((splitNl fc).take n ++ splitNl X ++ (splitNl fc).drop n,
        0 + ((splitNl X).length : Int),
        [] ++ (pys "Added after line " ++ pyIntStr (n : Int) ++ pys ":") ::
          (splitNl X).map (fun l => pys "  + " ++ l)) := by
    simp only [applyCmd]
    rw [if_neg (show ¬ (pys "ADD" = pys "REMOVE") by decide),
      if_neg (show ¬ (pys "ADD" = pys "MODIFY") by decide)]
    simp only [if_true]
    rw [if_pos (⟨by omega,
      by exact_mod_cast (by omega : (n : Int) ≤ ((splitNl fc).length : Int))⟩ :
        0 ≤ (n : Int) + 0 ∧ (n : Int) + 0 ≤ ((splitNl fc).length : Int))]
    have hn : ((n : Int) + 0).toNat = n := by omega
    rw [hn]
  have happly1 := apply_modifications_single fc _ _ _ _ hadd
  -- the intermediate file's lines are newline-free and nonempty
  have hfree : ∀ l ∈ (splitNl fc).take n ++ splitNl X ++ (splitNl fc).drop n,
      '\n' ∉ l := by
    intro l hl
    rcases List.mem_append.1 hl with hl | hl
    · rcases List.mem_append.1 hl with hl | hl
      · exact splitOnChar_not_mem '\n' fc l (List.mem_of_mem_take hl)
      · exact splitOnChar_not_mem '\n' X l hl
    · exact splitOnChar_not_mem '\n' fc l (List.mem_of_mem_drop hl)
  have hne2 : (splitNl fc).take n ++ splitNl X ++ (splitNl fc).drop n ≠ [] := by
    intro he
    rcases List.append_eq_nil.1 (List.append_eq_nil.1 he).1 with ⟨-, heN⟩
    exact splitOnChar_ne_nil '\n' X heN
  have hsplit2 : splitNl (joinNl ((splitNl fc).take n ++ splitNl X ++ (splitNl fc).drop n)) =
      (splitNl fc).take n ++ splitNl X ++ (splitNl fc).drop n :=
    splitNl_joinNl _ hne2 hfree
  have hlen2 : ((splitNl fc).take n ++ splitNl X ++ (splitNl fc).drop n).length =
      (splitNl fc).length + (splitNl X).length := by
    simp only [List.length_append, List.length_take, List.length_drop]
    omega
  -- the REMOVE step
  have hrem : ∃ rs : Int × List PyStr,
      applyCmd ((splitNl fc).take n ++ splitNl X ++ (splitNl fc).drop n) 0 []
        ⟨pys "REMOVE", [(n : Int) + 1, (n : Int) + ((splitNl X).length : Int)], []⟩ =
      some (splitNl fc, rs) := by
    apply Exists.intro
    simp only [applyCmd]
    simp only [if_true]
    rw [if_pos ?_]
    · rw [del_insert (splitNl fc) (splitNl X) n h2 _ _ (by omega) (by omega)]
    · refine ⟨by omega, ?_, by omega, ?_⟩ <;>
        · rw [hlen2]
          push_cast
          omega
  obtain ⟨rs, hremEq⟩ := hrem
  rw [← hsplit2] at hremEq
  have happly2 := apply_modifications_single
    (joinNl ((splitNl fc).take n ++ splitNl X ++ (splitNl fc).drop n)) _ _ _ _ hremEq
  rw [joinNl_splitNl fc] at happly2
  exact ⟨_, _, happly1, happly2⟩

/-- C8 witness: insert one line after line 1 of a two-line file, then
remove line 2. -/
theorem C8_add_remove_round_trip_witness :
    1 ≤ (splitNl (pys "a\nb")).length ∧
    (apply_modifications (pys "a\nb")
        [⟨pys "ADD", [((1 : Nat) : Int), ((1 : Nat) : Int)], pys "x"⟩]).map
      (fun r => (r.1, r.2.2)) = some (pys "a\nx\nb", false) ∧
    (apply_modifications (pys "a\nx\nb")
        [⟨pys "REMOVE", [((1 : Nat) : Int) + 1,
          ((1 : Nat) : Int) + ((splitNl (pys "x")).length : Int)], []⟩]).map
      (fun r => (r.1, r.2.2)) = some (pys "a\nb", false) := by
  obtain ⟨s1, s2, h1, h2⟩ :=
    C8_add_remove_round_trip (pys "a\nb") (pys "x") 1 (by decide) (by decide)
  have hmid : joinNl ((splitNl (pys "a\nb")).take 1 ++ splitNl (pys "x") ++
      (splitNl (pys "a\nb")).drop 1) = pys "a\nx\nb" := by decide
  rw [hmid] at h1 h2
  refine ⟨by decide, ?_, ?_⟩
  · rw [h1]
    rfl
  · rw [h2]
    rfl

/-- Dropping-while past a failing head. -/
theorem dropWhile_cons_neg {p : Char → Bool} {c : Char} {t : PyStr}
    (h : p c = false) : List.dropWhile p (c :: t) = c :: t := by
  simp [List.dropWhile, h]

/-- `rstrip` keeps a non-space head. -/
theorem rstrip_cons (c : Char) (t : PyStr) (hc : isPySpace c = false) :
    rstrip (c :: t) = c :: rstrip t := by
  unfold rstrip
  rw [List.reverse_cons, List.dropWhile_append]
  by_cases h : (List.dropWhile isPySpace t.reverse).isEmpty
  · rw [if_pos h]
    rw [List.isEmpty_iff] at h
    rw [h, dropWhile_cons_neg hc]
    simp
  · rw [if_neg h]
    simp

/-- `rstrip` erases an all-space tail. -/
theorem rstrip_append_space (x w : PyStr) (hw : ∀ ch ∈ w, isPySpace ch = true) :
    rstrip (x ++ w) = rstrip x := by
  unfold rstrip
  rw [List.reverse_append, List.dropWhile_append, if_pos ?_]
  rw [List.isEmpty_iff, List.dropWhile_eq_nil_iff]
  intro ch hch
  exact hw ch (List.mem_reverse.1 hch)

/-- `rstrip` of an all-non-space string. -/
theorem rstrip_of_nonspace (x : PyStr) (h : ∀ ch ∈ x, isPySpace ch = false) :
    rstrip x = x := by
  induction x with
  | nil => rfl
  | cons c t ih =>
    rw [rstrip_cons c t (h c (List.mem_cons_self _ _)),
      ih (fun ch hch => h ch (List.mem_cons_of_mem _ hch))]

/-- `rstrip` distributes over an append whose right part does not strip to
nothing. -/
theorem rstrip_append_ne (x m : PyStr) (h : rstrip m ≠ []) :
    rstrip (x ++ m) = x ++ rstrip m := by
  unfold rstrip at h ⊢
  rw [List.reverse_append, List.dropWhile_append, if_neg ?_]
  · simp
  · intro hemp
    rw [List.isEmpty_iff] at hemp
    rw [hemp] at h
    simp at h

/-- `pyStrip` with a non-space first character only strips the right. -/
theorem pyStrip_cons (c : Char) (t : PyStr) (hc : isPySpace c = false) :
    pyStrip (c :: t) = c :: rstrip t := by
  unfold pyStrip
  rw [dropWhile_cons_neg hc]
  show rstrip (c :: t) = c :: rstrip t
  exact rstrip_cons c t hc

/-- `splitFirstChar` misses an absent separator. -/
theorem splitFirstChar_not_mem (c : Char) (l : PyStr) (h : c ∉ l) :
    splitFirstChar c l = none := by
  induction l with
  | nil => rfl
  | cons a t ih =>
    have ha : ¬ a = c := fun he => h (by rw [he]; exact List.mem_cons_self _ _)
    unfold splitFirstChar
    rw [if_neg ha, ih (fun hm => h (List.mem_cons_of_mem _ hm))]
    rfl

/-- `splitFirstChar` splits at the first occurrence. -/
theorem splitFirstChar_append (c : Char) (x y : PyStr) (h : c ∉ x) :
    splitFirstChar c (x ++ c :: y) = some (x, y) := by
  induction x with
  | nil =>
    show splitFirstChar c (c :: y) = some ([], y)
    unfold splitFirstChar
    rw [if_pos rfl]
  | cons a t ih =>
    have ha : ¬ a = c := fun he => h (by rw [he]; exact List.mem_cons_self _ _)
    show splitFirstChar c (a :: (t ++ c :: y)) = some (a :: t, y)
    unfold splitFirstChar
    rw [if_neg ha, ih (fun hm => h (List.mem_cons_of_mem _ hm))]
    rfl

/-- `splitFirstSub` on an exact marker prefix. -/
theorem splitFirstSub_at_head (sep y : PyStr) (hne : sep ≠ []) :
    splitFirstSub sep (sep ++ y) = some ([], y) := by
  rcases sep with _ | ⟨c, cs⟩
  · exact absurd rfl hne
  · show splitFirstSub (c :: cs) (c :: (cs ++ y)) = some ([], y)
    unfold splitFirstSub
    rw [if_pos ?_]
    · rw [show c :: (cs ++ y) = (c :: cs) ++ y from rfl, List.drop_left]
    · rw [List.isPrefixOf_iff_prefix]
      exact ⟨y, rfl⟩

/-- `splitFirstSub` splits at a marker whose first occurrence is at the
given boundary (no occurrence starts inside `x`, including overlapping
occurrences that reach into the marker itself). -/
theorem splitFirstSub_boundary (sep x y : PyStr) (hne : sep ≠ [])
    (h : ¬ sep <:+: x ++ sep.dropLast) :
    splitFirstSub sep (x ++ sep ++ y) = some (x, y) := by
  induction x with
  | nil =>
    rw [List.nil_append]
    exact splitFirstSub_at_head sep y hne
  | cons a t ih =>
    have hsep' := List.dropLast_append_getLast hne
    have hpre : ¬ sep.isPrefixOf (a :: (t ++ sep ++ y)) = true := by
      intro hp
      rw [List.isPrefixOf_iff_prefix] at hp
      apply h
      have hL : a :: (t ++ sep ++ y) =
          ((a :: t) ++ sep.dropLast) ++ (sep.getLast hne :: y) := by
        conv_lhs => rw [← hsep']
        simp [List.append_assoc]
      rw [hL] at hp
      have hlenA : sep.length ≤ ((a :: t) ++ sep.dropLast).length := by
        have h1 : 1 ≤ sep.length := List.length_pos.2 hne
        simp [List.length_append, List.length_dropLast]
        omega
      have htk := List.prefix_iff_eq_take.1 hp
      have htk2 : (((a :: t) ++ sep.dropLast) ++ (sep.getLast hne :: y)).take sep.length =
          ((a :: t) ++ sep.dropLast).take sep.length := by
        rw [List.take_append_eq_append_take,
          Nat.sub_eq_zero_of_le hlenA, List.take_zero, List.append_nil]
      rw [htk2] at htk
      have hfin : sep <+: (a :: t) ++ sep.dropLast := by
        conv_lhs => rw [htk]
        exact List.take_prefix _ _
      exact hfin.isInfix
    have hsuf : ¬ sep <:+: t ++ sep.dropLast := by
      intro hinf
      exact h (hinf.trans (List.IsSuffix.isInfix ⟨[a], by simp⟩))
    show splitFirstSub sep (a :: (t ++ sep ++ y)) = some (a :: t, y)
    unfold splitFirstSub
    rw [if_neg hpre, ih hsuf]
    rfl

/-- A non-space step of `pySplitWSAux`. -/
theorem pySplitWSAux_cons_nonspace (c : Char) (cs cur : PyStr)
    (h : isPySpace c = false) :
    pySplitWSAux (c :: cs) cur = pySplitWSAux cs (c :: cur) := by
  conv_lhs => unfold pySplitWSAux
  rw [if_neg (by simp [h])]

/-- `pySplitWSAux` accumulates a non-space prefix. -/
theorem pySplitWSAux_chunk (kw : PyStr) (hkw : ∀ ch ∈ kw, isPySpace ch = false) :
    ∀ (r cur : PyStr), pySplitWSAux (kw ++ r) cur = pySplitWSAux r (kw.reverse ++ cur) := by
  induction kw with
  | nil => intro r cur; rfl
  | cons c t ih =>
    intro r cur
    show pySplitWSAux (c :: (t ++ r)) cur = pySplitWSAux r ((c :: t).reverse ++ cur)
    rw [show (c :: t).reverse ++ cur = t.reverse ++ (c :: cur) by simp]
    rw [pySplitWSAux_cons_nonspace c (t ++ r) cur (hkw c (List.mem_cons_self _ _))]
    exact ih (fun ch hch => hkw ch (List.mem_cons_of_mem _ hch)) r (c :: cur)

/-- Splitting `kw ++ ' ' ++ token` on whitespace gives the two tokens. -/
theorem pySplitWS_two_tokens (kw n : PyStr)
    (hkw : ∀ ch ∈ kw, isPySpace ch = false) (hkwne : kw ≠ [])
    (hn : ∀ ch ∈ n, isPySpace ch = false) (hne : n ≠ []) :
    pySplitWS (kw ++ ' ' :: n) = [kw, n] := by
  unfold pySplitWS
  rw [pySplitWSAux_chunk kw hkw (' ' :: n) [], List.append_nil]
  conv_lhs => unfold pySplitWSAux
  rw [if_pos (by decide), if_neg (by simpa using hkwne)]
  rw [pySplitWSAux_nonspace n [] (by simpa using hn) (by simpa using hne)]
  simp

/-- A single-character non-break step of `splitLinesKeepAux`. -/
theorem splitLinesKeepAux_cons_nb (c : Char) (cs cur : PyStr)
    (h : isPyLineBreak c = false) :
    splitLinesKeepAux (c :: cs) cur = splitLinesKeepAux cs (c :: cur) := by
  have hc : ¬ c = '\x0d' := by
    intro he
    rw [he] at h
    exact absurd h (by decide)
  conv_lhs => unfold splitLinesKeepAux
  rw [if_neg (fun hand => hc hand.1), if_neg (by simp [h])]

/-- A line-break step of `splitLinesKeepAux` on `'\n'`. -/
theorem splitLinesKeepAux_newline (cs cur : PyStr) :
    splitLinesKeepAux ('\n' :: cs) cur =
      (cur.reverse ++ ['\n']) :: splitLinesKeepAux cs [] := by
  conv_lhs => unfold splitLinesKeepAux
  rw [if_neg (fun hand => absurd hand.1 (by decide)), if_pos (by decide)]

/-- `splitLinesKeepAux` consumes one full terminated line. -/
theorem splitLinesKeepAux_line (b : PyStr) (hb : ∀ ch ∈ b, isPyLineBreak ch = false) :
    ∀ (rest cur : PyStr), splitLinesKeepAux (b ++ '\n' :: rest) cur =
      (cur.reverse ++ b ++ ['\n']) :: splitLinesKeepAux rest [] := by
  induction b with
  | nil =>
    intro rest cur
    rw [List.nil_append, splitLinesKeepAux_newline]
    simp
  | cons c t ih =>
    intro rest cur
    show splitLinesKeepAux (c :: (t ++ '\n' :: rest)) cur = _
    rw [splitLinesKeepAux_cons_nb c _ cur (hb c (List.mem_cons_self _ _))]
    rw [ih (fun ch hch => hb ch (List.mem_cons_of_mem _ hch)) rest (c :: cur)]
    simp

/-- `splitlines(keepends=True)` of a concatenation of newline-terminated,
break-free lines recovers exactly those lines. -/
theorem splitLinesKeep_flatten (ls : List PyStr)
    (h : ∀ l ∈ ls, ∃ b, l = b ++ ['\n'] ∧ ∀ ch ∈ b, isPyLineBreak ch = false) :
    splitLinesKeep ls.flatten = ls := by
  induction ls with
  | nil => simp [splitLinesKeep, splitLinesKeepAux]
  | cons l rest ih =>
    obtain ⟨b, hb, hbf⟩ := h l (List.mem_cons_self _ _)
    subst hb
    show splitLinesKeepAux ((b ++ ['\n']) ++ rest.flatten) [] = _
    rw [show (b ++ ['\n']) ++ rest.flatten = b ++ '\n' :: rest.flatten by simp]
    rw [splitLinesKeepAux_line b hbf rest.flatten []]
    rw [show splitLinesKeepAux rest.flatten [] = splitLinesKeep rest.flatten from rfl]
    rw [ih (fun x hx => h x (List.mem_cons_of_mem _ hx))]
    simp

/-- Digits are not whitespace. -/
theorem digit_not_space (ch : Char) (h : ch.isDigit = true) : isPySpace ch = false := by
  by_contra hs
  rw [Bool.not_eq_false] at hs
  unfold isPySpace at hs
  simp only [Bool.or_eq_true, decide_eq_true_eq] at hs
  rcases hs with ((((h1 | h1) | h1) | h1) | h1) | h1 <;>
    (subst h1; exact absurd h (by decide))

/-- Digits are not line breaks. -/
theorem digit_not_break (ch : Char) (h : ch.isDigit = true) :
    isPyLineBreak ch = false := by
  by_contra hs
  rw [Bool.not_eq_false] at hs
  unfold isPyLineBreak at hs
  simp only [Bool.or_eq_true, decide_eq_true_eq] at hs
  rcases hs with ((((((((h1 | h1) | h1) | h1) | h1) | h1) | h1) | h1) | h1) | h1 <;>
    (subst h1; exact absurd h (by decide))

/-- `int()` succeeds on a nonempty digit string. -/
theorem pyParseInt_digits (n : PyStr) (hne : n ≠ []) (hd : ∀ ch ∈ n, ch.isDigit) :
    ∃ v : Int, pyParseInt n = some v := by
  have hns : ∀ ch ∈ n, isPySpace ch = false := fun ch hch =>
    digit_not_space ch (hd ch hch)
  have hstrip : pyStrip n = n := by
    rcases n with _ | ⟨c, t⟩
    · exact absurd rfl hne
    · rw [pyStrip_cons c t (hns c (List.mem_cons_self _ _)),
        rstrip_of_nonspace t (fun ch hch => hns ch (List.mem_cons_of_mem _ hch))]
  have hpd : ∃ w : Nat, parseDigits n = some w := by
    rcases n with _ | ⟨c, t⟩
    · exact absurd rfl hne
    · refine ⟨(c :: t).foldl (fun acc ch => acc * 10 + (ch.toNat - 48)) 0, ?_⟩
      show (if (c :: t).all Char.isDigit then
          some ((c :: t).foldl (fun acc ch => acc * 10 + (ch.toNat - 48)) 0)
        else none) = _
      rw [if_pos (by simpa [List.all_eq_true] using hd)]
  obtain ⟨w, hw⟩ := hpd
  unfold pyParseInt
  rw [hstrip]
  rcases n with _ | ⟨c, t⟩
  · exact absurd rfl hne
  · have hcd := hd c (List.mem_cons_self _ _)
    have hcm : c ≠ '-' := by intro he; rw [he] at hcd; exact absurd hcd (by decide)
    have hcp : c ≠ '+' := by intro he; rw [he] at hcd; exact absurd hcd (by decide)
    split
    · rename_i heq
      exact absurd (by injection heq) hcm
    · rename_i heq
      exact absurd (by injection heq) hcp
    · rw [hw]
      exact ⟨_, rfl⟩

/-- The facts a well-formed number token provides. -/
theorem wfNum_facts (n : PyStr) (h : wfNum n) :
    n ≠ [] ∧ (∀ ch ∈ n, isPySpace ch = false) ∧
    (∀ ch ∈ n, isPyLineBreak ch = false) ∧ ':' ∉ n ∧ rstrip n = n := by
  obtain ⟨hne, hd⟩ := h
  have hns : ∀ ch ∈ n, isPySpace ch = false := fun ch hch =>
    digit_not_space ch (hd ch hch)
  refine ⟨hne, hns, fun ch hch => digit_not_break ch (hd ch hch), ?_, ?_⟩
  · intro hmem
    have := hd ':' hmem
    exact absurd this (by decide)
  · exact rstrip_of_nonspace n hns

/-- A well-formed command has a well-formed number token. -/
theorem SimpleCmd.wf_num (c : SimpleCmd) (h : c.wf) : wfNum c.num := by
  cases c with
  | add n ct => exact h.1
  | remove n => exact h
  | modify n ct => exact h.1

/-- `'-'` does not occur in a digit token, so the range branch is not
taken. -/
theorem pyIn_dash_digits (n : PyStr) (h : wfNum n) :
    pyIn (pys "-") n = false := by
  unfold pyIn
  rw [decide_eq_false_iff_not]
  intro hinf
  have hmem : '-' ∈ n := hinf.subset (by simp [pys])
  have := h.2 '-' hmem
  exact absurd this (by decide)

theorem parseCmdLine_add (st : ParseState) (n ct : PyStr) (v : Int)
    (hv : pyParseInt n = some v) (hwfct : wfContent ct) :
    parseCmdLine st (pys "ADD") n
      (some (pys "<CONTENT_START>" ++ (ct ++ (pys "<CONTENT_END>" ++ ['\n'])))) =
      .inl ⟨st.commands ++ [⟨pys "ADD", [v, v], ct⟩], [], some (pys "ADD"), none,
        [v, v], false⟩ := by
  simp only [parseCmdLine, if_true, hv,
    splitFirstSub_at_head (pys "<CONTENT_START>")
      (ct ++ (pys "<CONTENT_END>" ++ ['\n'])) (by decide)]
  rw [show ct ++ (pys "<CONTENT_END>" ++ ['\n']) = (ct ++ pys "<CONTENT_END>") ++ ['\n'] from
    (List.append_assoc ct (pys "<CONTENT_END>") ['\n']).symm]
  rw [splitFirstSub_boundary (pys "<CONTENT_END>") ct ['\n'] (by decide) hwfct.2]

theorem parseCmdLine_remove (st : ParseState) (n : PyStr) (v : Int)
    (hv : pyParseInt n = some v) (hwf : wfNum n) :
    parseCmdLine st (pys "REMOVE") n none =
      .inl ⟨st.commands ++ [⟨pys "REMOVE", [v, v], []⟩], st.current_content,
        some (pys "REMOVE"), none, [v, v], st.in_content_block⟩ := by
  simp only [parseCmdLine, hv, pyIn_dash_digits n hwf, if_true, if_false,
    Bool.false_eq_true, Option.map_some']
  rw [if_neg (by decide : ¬ pys "REMOVE" = pys "ADD")]

theorem parseCmdLine_modify (st : ParseState) (n ct : PyStr) (v : Int)
    (hv : pyParseInt n = some v) (hwf : wfNum n) (hwfct : wfContent ct) :
    parseCmdLine st (pys "MODIFY") n
      (some (pys "<CONTENT_START>" ++ (ct ++ (pys "<CONTENT_END>" ++ ['\n'])))) =
      .inl ⟨st.commands ++ [⟨pys "MODIFY", [v, v], ct⟩], [], some (pys "MODIFY"),
        none, [v, v], false⟩ := by
  simp only [parseCmdLine, hv, pyIn_dash_digits n hwf, if_true, if_false,
    Bool.false_eq_true, Option.map_some',
    splitFirstSub_at_head (pys "<CONTENT_START>")
      (ct ++ (pys "<CONTENT_END>" ++ ['\n'])) (by decide)]
  rw [if_neg (by decide : ¬ pys "MODIFY" = pys "ADD"),
    if_neg (by decide : ¬ pys "MODIFY" = pys "REMOVE")]
  rw [show ct ++ (pys "<CONTENT_END>" ++ ['\n']) = (ct ++ pys "<CONTENT_END>") ++ ['\n'] from
    (List.append_assoc ct (pys "<CONTENT_END>") ['\n']).symm]
  rw [splitFirstSub_boundary (pys "<CONTENT_END>") ct ['\n'] (by decide) hwfct.2]

theorem add_strip (n ct : PyStr) :
    pyStrip (renderCmd (.add n ct)) =
      'A' :: (pys "DD " ++ n ++ pys ":<CONTENT_START>" ++ ct ++ pys "<CONTENT_END>") := by
  have hCE : rstrip (pys "<CONTENT_END>") = pys "<CONTENT_END>" :=
    rstrip_of_nonspace _ (by decide)
  have e1 : pyStrip (renderCmd (.add n ct)) =
      'A' :: rstrip (pys "DD " ++ n ++ pys ":<CONTENT_START>" ++ ct ++
        pys "<CONTENT_END>" ++ ['\n']) := by
    show pyStrip ('A' :: (pys "DD " ++ n ++ pys ":<CONTENT_START>" ++ ct ++
        pys "<CONTENT_END>" ++ ['\n'])) = _
    exact pyStrip_cons _ _ (by decide)
  rw [e1,
    rstrip_append_space (pys "DD " ++ n ++ pys ":<CONTENT_START>" ++ ct ++
      pys "<CONTENT_END>") ['\n'] (by decide),
    rstrip_append_ne (pys "DD " ++ n ++ pys ":<CONTENT_START>" ++ ct)
      (pys "<CONTENT_END>") (by rw [hCE]; decide), hCE]

theorem add_startswith (n ct : PyStr) :
    (pyStartsWith (pyStrip (renderCmd (.add n ct))) (pys "ADD ") ||
     pyStartsWith (pyStrip (renderCmd (.add n ct))) (pys "REMOVE ") ||
     pyStartsWith (pyStrip (renderCmd (.add n ct))) (pys "MODIFY ")) = true := by
  have h1 : pyStartsWith
      ('A' :: (pys "DD " ++ n ++ pys ":<CONTENT_START>" ++ ct ++ pys "<CONTENT_END>"))
      (pys "ADD ") = true := by
    unfold pyStartsWith
    rw [List.isPrefixOf_iff_prefix]
    refine ⟨n ++ pys ":<CONTENT_START>" ++ ct ++ pys "<CONTENT_END>", ?_⟩
    simp only [List.append_assoc]
    rfl
  rw [add_strip, h1]
  rfl

theorem add_blank (n ct : PyStr) (st : ParseState) :
    ¬ (pyStrip (renderCmd (.add n ct)) = [] ∧ st.in_content_block = false) := by
  intro hand
  rw [add_strip] at hand
  exact List.cons_ne_nil _ _ hand.1

theorem add_colon_split (n ct : PyStr) (hn : wfNum n) :
    splitFirstChar ':' (renderCmd (.add n ct)) =
      some (pys "ADD " ++ n,
        pys "<CONTENT_START>" ++ (ct ++ (pys "<CONTENT_END>" ++ ['\n']))) := by
  have hnc : ':' ∉ pys "ADD " ++ n := by
    intro hm
    rcases List.mem_append.1 hm with h | h
    · exact absurd h (by decide)
    · exact absurd (hn.2 ':' h) (by decide)
  have harr : (pys "ADD " ++ n) ++ ':' ::
      (pys "<CONTENT_START>" ++ (ct ++ (pys "<CONTENT_END>" ++ ['\n']))) =
      renderCmd (.add n ct) := by
    show _ = pys "ADD " ++ n ++ pys ":<CONTENT_START>" ++ ct ++ pys "<CONTENT_END>" ++ ['\n']
    simp only [List.append_assoc]
    rfl
  have h2 := splitFirstChar_append ':' (pys "ADD " ++ n)
    (pys "<CONTENT_START>" ++ (ct ++ (pys "<CONTENT_END>" ++ ['\n']))) hnc
  rw [harr] at h2
  exact h2

theorem add_splitws (n : PyStr) (hn : wfNum n) :
    pySplitWS (pyStrip (pys "ADD " ++ n)) = [pys "ADD", n] := by
  obtain ⟨hne, hns, hnb, hnc, hrs⟩ := wfNum_facts n hn
  have e : pyStrip (pys "ADD " ++ n) = 'A' :: (pys "DD " ++ n) := by
    show pyStrip ('A' :: (pys "DD " ++ n)) = _
    rw [pyStrip_cons _ _ (by decide),
      rstrip_append_ne _ _ (by rw [hrs]; exact hne), hrs]
  rw [e]
  show pySplitWS (pys "ADD" ++ ' ' :: n) = [pys "ADD", n]
  exact pySplitWS_two_tokens (pys "ADD") n (by decide) (by decide) hns hne

theorem parseLoop_step_add (st : ParseState) (n ct : PyStr) (rest : List PyStr)
    (hn : wfNum n) (hct : wfContent ct) (v : Int) (hv : pyParseInt n = some v)
    (hcur : st.current_command_type = none ∨
      st.current_command_type = some (pys "ADD")) :
    parseLoop st (renderCmd (.add n ct) :: rest) =
      parseLoop (stepParse st (.add n ct) v) rest := by
  simp only [parseLoop]
  rw [if_neg (add_blank n ct st), if_pos (add_startswith n ct)]
  simp only [add_colon_split n ct hn, Option.map_some', add_splitws n hn]
  rw [if_neg (by decide : ¬ ¬ (True ∨ pys "ADD" = pys "REMOVE" ∨
    pys "ADD" = pys "MODIFY"))]
  rcases hcur with h | h
  · simp only [h, parseCmdLine_add st n ct v hv hct, stepParse]
  · simp only [h]
    rw [if_neg (by decide : ¬ (pys "ADD" ≠ pys "ADD"))]
    simp only [parseCmdLine_add st n ct v hv hct, stepParse]

theorem parseLoop_mix_add (st : ParseState) (n ct : PyStr) (rest : List PyStr)
    (cur : PyStr) (hn : wfNum n) (hcur : st.current_command_type = some cur)
    (hne : pys "ADD" ≠ cur) :
    parseLoop st (renderCmd (.add n ct) :: rest) =
      (none, some (mixError cur (pys "ADD"))) := by
  simp only [parseLoop]
  rw [if_neg (add_blank n ct st), if_pos (add_startswith n ct)]
  simp only [add_colon_split n ct hn, Option.map_some', add_splitws n hn]
  rw [if_neg (by decide : ¬ ¬ (True ∨ pys "ADD" = pys "REMOVE" ∨
    pys "ADD" = pys "MODIFY"))]
  simp only [hcur]
  rw [if_pos hne]

theorem pyStartsWith_head_ne (c : Char) (t : PyStr) (c2 : Char) (p : PyStr)
    (h : c2 ≠ c) : pyStartsWith (c :: t) (c2 :: p) = false := by
  unfold pyStartsWith
  rw [Bool.eq_false_iff]
  intro hp
  rw [List.isPrefixOf_iff_prefix] at hp
  obtain ⟨u, hu⟩ := hp
  rw [List.cons_append] at hu
  injection hu with h1 h2
  exact h h1

theorem remove_strip (n : PyStr) (hn : wfNum n) :
    pyStrip (renderCmd (.remove n)) = 'R' :: (pys "EMOVE " ++ n) := by
  obtain ⟨hne, hns, hnb, hnc, hrs⟩ := wfNum_facts n hn
  have e1 : pyStrip (renderCmd (.remove n)) =
      'R' :: rstrip (pys "EMOVE " ++ n ++ ['\n']) := by
    show pyStrip ('R' :: (pys "EMOVE " ++ n ++ ['\n'])) = _
    exact pyStrip_cons _ _ (by decide)
  rw [e1, rstrip_append_space (pys "EMOVE " ++ n) ['\n'] (by decide),
    rstrip_append_ne _ _ (by rw [hrs]; exact hne), hrs]

theorem remove_startswith (n : PyStr) (hn : wfNum n) :
    (pyStartsWith (pyStrip (renderCmd (.remove n))) (pys "ADD ") ||
     pyStartsWith (pyStrip (renderCmd (.remove n))) (pys "REMOVE ") ||
     pyStartsWith (pyStrip (renderCmd (.remove n))) (pys "MODIFY ")) = true := by
  have h0 : pyStartsWith ('R' :: (pys "EMOVE " ++ n)) (pys "ADD ") = false := by
    show pyStartsWith ('R' :: (pys "EMOVE " ++ n)) ('A' :: pys "DD ") = false
    exact pyStartsWith_head_ne _ _ _ _ (by decide)
  have h2 : pyStartsWith ('R' :: (pys "EMOVE " ++ n)) (pys "REMOVE ") = true := by
    unfold pyStartsWith
    rw [List.isPrefixOf_iff_prefix]
    exact ⟨n, rfl⟩
  rw [remove_strip n hn, h0, h2]
  rfl

theorem remove_blank (n : PyStr) (hn : wfNum n) (st : ParseState) :
    ¬ (pyStrip (renderCmd (.remove n)) = [] ∧ st.in_content_block = false) := by
  intro hand
  rw [remove_strip n hn] at hand
  exact List.cons_ne_nil _ _ hand.1

theorem remove_colon (n : PyStr) (hn : wfNum n) :
    splitFirstChar ':' (renderCmd (.remove n)) = none := by
  apply splitFirstChar_not_mem
  intro hm
  rcases List.mem_append.1 hm with h | h
  · rcases List.mem_append.1 h with h | h
    · exact absurd h (by decide)
    · exact absurd (hn.2 ':' h) (by decide)
  · exact absurd h (by decide)

theorem remove_splitws (n : PyStr) (hn : wfNum n) :
    pySplitWS (pyStrip (renderCmd (.remove n))) = [pys "REMOVE", n] := by
  obtain ⟨hne, hns, hnb, hnc, hrs⟩ := wfNum_facts n hn
  rw [remove_strip n hn]
  show pySplitWS (pys "REMOVE" ++ ' ' :: n) = [pys "REMOVE", n]
  exact pySplitWS_two_tokens (pys "REMOVE") n (by decide) (by decide) hns hne

theorem parseLoop_step_remove (st : ParseState) (n : PyStr) (rest : List PyStr)
    (hn : wfNum n) (v : Int) (hv : pyParseInt n = some v)
    (hcur : st.current_command_type = none ∨
      st.current_command_type = some (pys "REMOVE")) :
    parseLoop st (renderCmd (.remove n) :: rest) =
      parseLoop (stepParse st (.remove n) v) rest := by
  simp only [parseLoop]
  rw [if_neg (remove_blank n hn st), if_pos (remove_startswith n hn)]
  simp only [remove_colon n hn, Option.map_none', remove_splitws n hn]
  rw [if_neg (by decide : ¬ ¬ (pys "REMOVE" = pys "ADD" ∨ True ∨
    pys "REMOVE" = pys "MODIFY"))]
  rcases hcur with h | h
  · simp only [h, parseCmdLine_remove st n v hv hn, stepParse]
  · simp only [h]
    rw [if_neg (by decide : ¬ (pys "REMOVE" ≠ pys "REMOVE"))]
    simp only [parseCmdLine_remove st n v hv hn, stepParse]

theorem parseLoop_mix_remove (st : ParseState) (n : PyStr) (rest : List PyStr)
    (cur : PyStr) (hn : wfNum n) (hcur : st.current_command_type = some cur)
    (hne : pys "REMOVE" ≠ cur) :
    parseLoop st (renderCmd (.remove n) :: rest) =
      (none, some (mixError cur (pys "REMOVE"))) := by
  simp only [parseLoop]
  rw [if_neg (remove_blank n hn st), if_pos (remove_startswith n hn)]
  simp only [remove_colon n hn, Option.map_none', remove_splitws n hn]
  rw [if_neg (by decide : ¬ ¬ (pys "REMOVE" = pys "ADD" ∨ True ∨
    pys "REMOVE" = pys "MODIFY"))]
  simp only [hcur]
  rw [if_pos hne]

theorem modify_strip (n ct : PyStr) :
    pyStrip (renderCmd (.modify n ct)) =
      'M' :: (pys "ODIFY " ++ n ++ pys ":<CONTENT_START>" ++ ct ++
        pys "<CONTENT_END>") := by
  have hCE : rstrip (pys "<CONTENT_END>") = pys "<CONTENT_END>" :=
    rstrip_of_nonspace _ (by decide)
  have e1 : pyStrip (renderCmd (.modify n ct)) =
      'M' :: rstrip (pys "ODIFY " ++ n ++ pys ":<CONTENT_START>" ++ ct ++
        pys "<CONTENT_END>" ++ ['\n']) := by
    show pyStrip ('M' :: (pys "ODIFY " ++ n ++ pys ":<CONTENT_START>" ++ ct ++
        pys "<CONTENT_END>" ++ ['\n'])) = _
    exact pyStrip_cons _ _ (by decide)
  rw [e1,
    rstrip_append_space (pys "ODIFY " ++ n ++ pys ":<CONTENT_START>" ++ ct ++
      pys "<CONTENT_END>") ['\n'] (by decide),
    rstrip_append_ne (pys "ODIFY " ++ n ++ pys ":<CONTENT_START>" ++ ct)
      (pys "<CONTENT_END>") (by rw [hCE]; decide), hCE]

theorem modify_startswith (n ct : PyStr) :
    (pyStartsWith (pyStrip (renderCmd (.modify n ct))) (pys "ADD ") ||
     pyStartsWith (pyStrip (renderCmd (.modify n ct))) (pys "REMOVE ") ||
     pyStartsWith (pyStrip (renderCmd (.modify n ct))) (pys "MODIFY ")) = true := by
  have h0 : pyStartsWith
      ('M' :: (pys "ODIFY " ++ n ++ pys ":<CONTENT_START>" ++ ct ++ pys "<CONTENT_END>"))
      (pys "ADD ") = false := by
    show pyStartsWith _ ('A' :: pys "DD ") = false
    exact pyStartsWith_head_ne _ _ _ _ (by decide)
  have h0b : pyStartsWith
      ('M' :: (pys "ODIFY " ++ n ++ pys ":<CONTENT_START>" ++ ct ++ pys "<CONTENT_END>"))
      (pys "REMOVE ") = false := by
    show pyStartsWith _ ('R' :: pys "EMOVE ") = false
    exact pyStartsWith_head_ne _ _ _ _ (by decide)
  have h1 : pyStartsWith
      ('M' :: (pys "ODIFY " ++ n ++ pys ":<CONTENT_START>" ++ ct ++ pys "<CONTENT_END>"))
      (pys "MODIFY ") = true := by
    unfold pyStartsWith
    rw [List.isPrefixOf_iff_prefix]
    refine ⟨n ++ pys ":<CONTENT_START>" ++ ct ++ pys "<CONTENT_END>", ?_⟩
    simp only [List.append_assoc]
    rfl
  rw [modify_strip, h0, h0b, h1]
  rfl

theorem modify_blank (n ct : PyStr) (st : ParseState) :
    ¬ (pyStrip (renderCmd (.modify n ct)) = [] ∧ st.in_content_block = false) := by
  intro hand
  rw [modify_strip] at hand
  exact List.cons_ne_nil _ _ hand.1

theorem modify_colon_split (n ct : PyStr) (hn : wfNum n) :
    splitFirstChar ':' (renderCmd (.modify n ct)) =
      some (pys "MODIFY " ++ n,
        pys "<CONTENT_START>" ++ (ct ++ (pys "<CONTENT_END>" ++ ['\n']))) := by
  have hnc : ':' ∉ pys "MODIFY " ++ n := by
    intro hm
    rcases List.mem_append.1 hm with h | h
    · exact absurd h (by decide)
    · exact absurd (hn.2 ':' h) (by decide)
  have harr : (pys "MODIFY " ++ n) ++ ':' ::
      (pys "<CONTENT_START>" ++ (ct ++ (pys "<CONTENT_END>" ++ ['\n']))) =
      renderCmd (.modify n ct) := by
    show _ = pys "MODIFY " ++ n ++ pys ":<CONTENT_START>" ++ ct ++
      pys "<CONTENT_END>" ++ ['\n']
    simp only [List.append_assoc]
    rfl
  have h2 := splitFirstChar_append ':' (pys "MODIFY " ++ n)
    (pys "<CONTENT_START>" ++ (ct ++ (pys "<CONTENT_END>" ++ ['\n']))) hnc
  rw [harr] at h2
  exact h2

theorem modify_splitws (n : PyStr) (hn : wfNum n) :
    pySplitWS (pyStrip (pys "MODIFY " ++ n)) = [pys "MODIFY", n] := by
  obtain ⟨hne, hns, hnb, hnc, hrs⟩ := wfNum_facts n hn
  have e : pyStrip (pys "MODIFY " ++ n) = 'M' :: (pys "ODIFY " ++ n) := by
    show pyStrip ('M' :: (pys "ODIFY " ++ n)) = _
    rw [pyStrip_cons _ _ (by decide),
      rstrip_append_ne _ _ (by rw [hrs]; exact hne), hrs]
  rw [e]
  show pySplitWS (pys "MODIFY" ++ ' ' :: n) = [pys "MODIFY", n]
  exact pySplitWS_two_tokens (pys "MODIFY") n (by decide) (by decide) hns hne

theorem parseLoop_step_modify (st : ParseState) (n ct : PyStr) (rest : List PyStr)
    (hn : wfNum n) (hct : wfContent ct) (v : Int) (hv : pyParseInt n = some v)
    (hcur : st.current_command_type = none ∨
      st.current_command_type = some (pys "MODIFY")) :
    parseLoop st (renderCmd (.modify n ct) :: rest) =
      parseLoop (stepParse st (.modify n ct) v) rest := by
  simp only [parseLoop]
  rw [if_neg (modify_blank n ct st), if_pos (modify_startswith n ct)]
  simp only [modify_colon_split n ct hn, Option.map_some', modify_splitws n hn]
  rw [if_neg (by decide : ¬ ¬ (pys "MODIFY" = pys "ADD" ∨
    pys "MODIFY" = pys "REMOVE" ∨ True))]
  rcases hcur with h | h
  · simp only [h, parseCmdLine_modify st n ct v hv hn hct, stepParse]
  · simp only [h]
    rw [if_neg (by decide : ¬ (pys "MODIFY" ≠ pys "MODIFY"))]
    simp only [parseCmdLine_modify st n ct v hv hn hct, stepParse]

theorem parseLoop_mix_modify (st : ParseState) (n ct : PyStr) (rest : List PyStr)
    (cur : PyStr) (hn : wfNum n) (hcur : st.current_command_type = some cur)
    (hne : pys "MODIFY" ≠ cur) :
    parseLoop st (renderCmd (.modify n ct) :: rest) =
      (none, some (mixError cur (pys "MODIFY"))) := by
  simp only [parseLoop]
  rw [if_neg (modify_blank n ct st), if_pos (modify_startswith n ct)]
  simp only [modify_colon_split n ct hn, Option.map_some', modify_splitws n hn]
  rw [if_neg (by decide : ¬ ¬ (pys "MODIFY" = pys "ADD" ∨
    pys "MODIFY" = pys "REMOVE" ∨ True))]
  simp only [hcur]
  rw [if_pos hne]

theorem stepParse_cct (st : ParseState) (c : SimpleCmd) (v : Int) :
    (stepParse st c v).current_command_type = some c.kind := by
  cases c <;> rfl

theorem parseLoop_rendered_step (st : ParseState) (c : SimpleCmd)
    (rest : List PyStr) (hwf : c.wf)
    (hcur : st.current_command_type = none ∨
      st.current_command_type = some c.kind) :
    ∃ v : Int, parseLoop st (renderCmd c :: rest) =
      parseLoop (stepParse st c v) rest := by
  cases c with
  | add n ct =>
    obtain ⟨v, hv⟩ := pyParseInt_digits n hwf.1.1 hwf.1.2
    exact ⟨v, parseLoop_step_add st n ct rest hwf.1 hwf.2 v hv hcur⟩
  | remove n =>
    obtain ⟨v, hv⟩ := pyParseInt_digits n hwf.1 hwf.2
    exact ⟨v, parseLoop_step_remove st n rest hwf v hv hcur⟩
  | modify n ct =>
    obtain ⟨v, hv⟩ := pyParseInt_digits n hwf.1.1 hwf.1.2
    exact ⟨v, parseLoop_step_modify st n ct rest hwf.1 hwf.2 v hv hcur⟩

theorem parseLoop_rendered_mix (st : ParseState) (c : SimpleCmd)
    (rest : List PyStr) (cur : PyStr) (hwf : c.wf)
    (hcur : st.current_command_type = some cur) (hne : c.kind ≠ cur) :
    parseLoop st (renderCmd c :: rest) = (none, some (mixError cur c.kind)) := by
  cases c with
  | add n ct => exact parseLoop_mix_add st n ct rest cur hwf.1 hcur hne
  | remove n => exact parseLoop_mix_remove st n rest cur hwf hcur hne
  | modify n ct => exact parseLoop_mix_modify st n ct rest cur hwf.1 hcur hne

theorem parseLoop_mix_reject (pre : List SimpleCmd) (st : ParseState) (k : PyStr)
    (c2 : SimpleCmd) (rest : List PyStr)
    (hpre : ∀ p ∈ pre, p.wf ∧ p.kind = k) (hc2 : c2.wf) (hk : c2.kind ≠ k)
    (hst : st.current_command_type = some k) :
    parseLoop st (pre.map renderCmd ++ renderCmd c2 :: rest) =
      (none, some (mixError k c2.kind)) := by
  induction pre generalizing st with
  | nil => exact parseLoop_rendered_mix st c2 rest k hc2 hst hk
  | cons p ps ih =>
    obtain ⟨hpw, hpk⟩ := hpre p (List.mem_cons_self _ _)
    have hcur : st.current_command_type = none ∨
        st.current_command_type = some p.kind := Or.inr (by rw [hst, hpk])
    obtain ⟨v, hstep⟩ := parseLoop_rendered_step st p
      (ps.map renderCmd ++ renderCmd c2 :: rest) hpw hcur
    show parseLoop st (renderCmd p :: (ps.map renderCmd ++ renderCmd c2 :: rest)) = _
    rw [hstep]
    exact ih (stepParse st p v) (fun q hq => hpre q (List.mem_cons_of_mem _ hq))
      (by rw [stepParse_cct, hpk])

theorem renderCmd_line (c : SimpleCmd) (h : c.wf) :
    ∃ b, renderCmd c = b ++ ['\n'] ∧ ∀ ch ∈ b, isPyLineBreak ch = false := by
  cases c with
  | add n ct =>
    refine ⟨pys "ADD " ++ n ++ pys ":<CONTENT_START>" ++ ct ++ pys "<CONTENT_END>",
      rfl, ?_⟩
    intro ch hch
    rcases List.mem_append.1 hch with h1 | h1
    · rcases List.mem_append.1 h1 with h1 | h1
      · rcases List.mem_append.1 h1 with h1 | h1
        · rcases List.mem_append.1 h1 with h1 | h1
          · exact (show ∀ x ∈ pys "ADD ", isPyLineBreak x = false by decide) ch h1
          · exact digit_not_break ch (h.1.2 ch h1)
        · exact (show ∀ x ∈ pys ":<CONTENT_START>", isPyLineBreak x = false by decide)
            ch h1
      · exact h.2.1 ch h1
    · exact (show ∀ x ∈ pys "<CONTENT_END>", isPyLineBreak x = false by decide) ch h1
  | remove n =>
    refine ⟨pys "REMOVE " ++ n, rfl, ?_⟩
    intro ch hch
    rcases List.mem_append.1 hch with h1 | h1
    · exact (show ∀ x ∈ pys "REMOVE ", isPyLineBreak x = false by decide) ch h1
    · exact digit_not_break ch (h.2 ch h1)
  | modify n ct =>
    refine ⟨pys "MODIFY " ++ n ++ pys ":<CONTENT_START>" ++ ct ++ pys "<CONTENT_END>",
      rfl, ?_⟩
    intro ch hch
    rcases List.mem_append.1 hch with h1 | h1
    · rcases List.mem_append.1 h1 with h1 | h1
      · rcases List.mem_append.1 h1 with h1 | h1
        · rcases List.mem_append.1 h1 with h1 | h1
          · exact (show ∀ x ∈ pys "MODIFY ", isPyLineBreak x = false by decide) ch h1
          · exact digit_not_break ch (h.1.2 ch h1)
        · exact (show ∀ x ∈ pys ":<CONTENT_START>", isPyLineBreak x = false by decide)
            ch h1
      · exact h.2.1 ch h1
    · exact (show ∀ x ∈ pys "<CONTENT_END>", isPyLineBreak x = false by decide) ch h1

theorem renderCmd_head (c : SimpleCmd) :
    ∃ ch t, renderCmd c = ch :: t ∧ isPySpace ch = false := by
  cases c with
  | add n ct => exact ⟨'A', _, rfl, by decide⟩
  | remove n => exact ⟨'R', _, rfl, by decide⟩
  | modify n ct => exact ⟨'M', _, rfl, by decide⟩

/-- C2: Same-kind rule with atomicity — for every diff-mode edit batch that
contains two distinct command kinds (a nonempty run of well-formed commands
of one kind `k` followed by the first well-formed command of a different
kind, then anything), `parse_modification_commands` rejects the entire
batch with the mixing error, that error names both kinds (both occur in it
as substrings), and `process_file_modifications` applies no command: it
returns the target file's bytes unchanged for every file content. -/
theorem C2_mixed_kinds_rejected (fc : PyStr) (pre suf : List SimpleCmd)
    (c2 : SimpleCmd) (k : PyStr)
    (hpre : ∀ p ∈ pre, p.wf ∧ p.kind = k) (hprene : pre ≠ [])
    (hc2 : c2.wf) (hk : c2.kind ≠ k) (hsuf : ∀ p ∈ suf, p.wf) :
    parse_modification_commands (renderBatch (pre ++ c2 :: suf)) =
      (none, some (mixError k c2.kind)) ∧
    process_file_modifications fc (renderBatch (pre ++ c2 :: suf)) =
      some (fc, mixError k c2.kind, some (mixError k c2.kind)) ∧
    k <:+: mixError k c2.kind ∧ c2.kind <:+: mixError k c2.kind := by
  obtain ⟨p0, pre', rfl⟩ := List.exists_cons_of_ne_nil hprene
  obtain ⟨hw0, hk0⟩ := hpre p0 (List.mem_cons_self _ _)
  have hlines : splitLinesKeep (renderBatch ((p0 :: pre') ++ c2 :: suf)) =
      ((p0 :: pre') ++ c2 :: suf).map renderCmd := by
    unfold renderBatch
    apply splitLinesKeep_flatten
    intro l hl
    rw [List.mem_map] at hl
    obtain ⟨p, hp, rfl⟩ := hl
    apply renderCmd_line
    rcases List.mem_append.1 hp with h | h
    · exact (hpre p h).1
    · rcases List.mem_cons.1 h with h | h
      · exact h ▸ hc2
      · exact hsuf p h
  obtain ⟨ch, t0, hhead, hns⟩ := renderCmd_head p0
  have hbatch : renderBatch ((p0 :: pre') ++ c2 :: suf) =
      ch :: (t0 ++ ((pre' ++ c2 :: suf).map renderCmd).flatten) := by
    show ((p0 :: (pre' ++ c2 :: suf)).map renderCmd).flatten = _
    rw [List.map_cons, List.flatten_cons, hhead]
    rfl
  have hblank : ¬ (renderBatch ((p0 :: pre') ++ c2 :: suf) = [] ∨
      pyStrip (renderBatch ((p0 :: pre') ++ c2 :: suf)) = []) := by
    intro hor
    rcases hor with h | h
    · rw [hbatch] at h
      exact List.cons_ne_nil _ _ h
    · rw [hbatch, pyStrip_cons _ _ hns] at h
      exact List.cons_ne_nil _ _ h
  have hmain : parse_modification_commands
      (renderBatch ((p0 :: pre') ++ c2 :: suf)) =
      (none, some (mixError k c2.kind)) := by
    unfold parse_modification_commands
    rw [if_neg hblank, hlines]
    rw [show ((p0 :: pre') ++ c2 :: suf).map renderCmd =
        renderCmd p0 :: (pre'.map renderCmd ++ renderCmd c2 :: suf.map renderCmd)
      from by simp]
    obtain ⟨v, hstep⟩ := parseLoop_rendered_step initParseState p0
      (pre'.map renderCmd ++ renderCmd c2 :: suf.map renderCmd) hw0 (Or.inl rfl)
    rw [hstep]
    exact parseLoop_mix_reject pre' (stepParse initParseState p0 v) k c2
      (suf.map renderCmd) (fun q hq => hpre q (List.mem_cons_of_mem _ hq)) hc2 hk
      (by rw [stepParse_cct, hk0])
  refine ⟨hmain, ?_, ?_, ?_⟩
  · unfold process_file_modifications
    rw [hmain]
  · exact ⟨pys "Error: Cannot mix different command types. Found both ",
      pys " and " ++ c2.kind ++ pys ".", by simp [mixError, List.append_assoc]⟩
  · exact ⟨pys "Error: Cannot mix different command types. Found both " ++ k ++
      pys " and ", pys ".", by simp [mixError, List.append_assoc]⟩

theorem C2_mixed_kinds_rejected_witness :
    parse_modification_commands
        (renderBatch ([SimpleCmd.add (pys "2") (pys "x")] ++
          SimpleCmd.remove (pys "1") :: [])) =
      (none, some (mixError (pys "ADD") (SimpleCmd.remove (pys "1")).kind)) ∧
    process_file_modifications (pys "a")
        (renderBatch ([SimpleCmd.add (pys "2") (pys "x")] ++
          SimpleCmd.remove (pys "1") :: [])) =
      some (pys "a", mixError (pys "ADD") (SimpleCmd.remove (pys "1")).kind,
        some (mixError (pys "ADD") (SimpleCmd.remove (pys "1")).kind)) ∧
    pys "ADD" <:+: mixError (pys "ADD") (SimpleCmd.remove (pys "1")).kind ∧
    (SimpleCmd.remove (pys "1")).kind <:+:
      mixError (pys "ADD") (SimpleCmd.remove (pys "1")).kind :=
  C2_mixed_kinds_rejected (pys "a") [SimpleCmd.add (pys "2") (pys "x")] []
    (SimpleCmd.remove (pys "1")) (pys "ADD")
    (by decide) (by decide) (by decide) (by decide) (by decide)
